import Mathlib

set_option maxRecDepth 100000

deriving instance DecidableEq for Except

/-!
# Verification of the payments engine (`src/engine.rs`, `src/domain.rs`)

A shallow embedding of the transaction-processing engine.  The engine owns two
maps (client accounts keyed by `ClientId`, transaction history keyed by
`TransactionId`) and processes deposit / withdrawal / dispute / resolve /
chargeback transactions.

Modelling choices:

* `rust_decimal::Decimal` values are exact scaled decimals: a 96-bit integer
  mantissa times `10^(-scale)` with `scale ≤ 28`.  Every representable value is
  therefore an integer multiple of `10^(-28)`, and we embed monetary values as
  integers counted in units of `10^(-28)` (exact arithmetic, no floating
  point).  The largest representable magnitude is `Decimal::MAX = 2^96 - 1`
  (at scale 0), i.e. `(2^96 - 1) * 10^28` in our units; `checked_add` fails
  (returns `none`) when the exact sum leaves that range, mirroring
  `Decimal::checked_add` returning `None` on overflow.
* `HashMap` is embedded as an association list with first-match lookup and
  in-place update (`updateA` replaces the binding if the key is present and
  appends it otherwise); as a key-value mapping this has exactly the observable
  behaviour of the Rust `HashMap` operations the engine uses (`entry().or_default()`,
  `get`, `get_mut`, `insert`, `contains_key`).
* `ClientId` (`u16`) and `TransactionId` (`u32`) are embedded as `ℕ`; the
  engine only ever compares them for equality, so the width is irrelevant.
* Rust's `&mut self` methods returning `Result<(), ProcessingError>` become
  functions `PaymentsEngine → Transaction → PaymentsEngine × Except ProcessingError Unit`.
-/

namespace Payments

/-- Largest `Decimal` magnitude, in units of `10^(-28)`:
`Decimal::MAX = 2^96 - 1` at scale 0. -/
def DECIMAL_MAX : ℤ := (2 ^ 96 - 1) * 10 ^ 28

/-- `Decimal::checked_add`: the exact sum when it stays inside the
representable range, `none` on overflow. -/
def checked_add (a b : ℤ) : Option ℤ :=
  if -DECIMAL_MAX ≤ a + b ∧ a + b ≤ DECIMAL_MAX then some (a + b) else none

/-- `ClientId` (`u16` in `domain.rs`): opaque equality key. -/
abbrev ClientId := ℕ

/-- `TransactionId` (`u32` in `domain.rs`): opaque equality key. -/
abbrev TransactionId := ℕ

/-- `TransactionType` from `domain.rs`. -/
inductive TransactionType where
  | Deposit
  | Withdrawal
  | Dispute
  | Resolve
  | Chargeback
deriving DecidableEq, Repr

/-- `TransactionType::is_standard_transaction`:
`matches!(self, Deposit | Withdrawal)`. -/
def TransactionType.is_standard_transaction : TransactionType → Bool
  | .Deposit => true
  | .Withdrawal => true
  | _ => false

/-- `TransactionStatus` from `domain.rs`. -/
inductive TransactionStatus where
  | Pending
  | Settled
  | Disputed
  | Resolved
  | ChargedBack
deriving DecidableEq, Repr

/-- `Amount` from `domain.rs`: a strictly positive `Decimal`, enforced at
construction (`Amount::new` rejects non-positive values); every `Decimal`
is bounded by `Decimal::MAX` by representation. -/
structure Amount where
  value : ℤ
  value_pos : 0 < value
  value_le_max : value ≤ DECIMAL_MAX

instance : DecidableEq Amount := fun a b =>
  decidable_of_iff (a.value = b.value) (by cases a; cases b; simp)

/-- `Transaction` from `domain.rs`. -/
structure Transaction where
  tx_type : TransactionType
  client : ClientId
  tx : TransactionId
  amount : Option Amount
  tx_status : TransactionStatus
deriving DecidableEq

/-- `From<TransactionRow> for Transaction`: a freshly parsed transaction
enters the engine with status `Pending`. -/
def Transaction.ofRow (tx_type : TransactionType) (client : ClientId)
    (tx : TransactionId) (amount : Option Amount) : Transaction :=
  { tx_type := tx_type, client := client, tx := tx, amount := amount,
    tx_status := .Pending }

/-- `ClientAccount` from `engine.rs`. -/
structure ClientAccount where
  available_balance : ℤ
  held_balance : ℤ
  locked : Bool
deriving DecidableEq

/-- `ClientAccount::default()`: all-zero, unlocked. -/
def ClientAccount.default : ClientAccount :=
  { available_balance := 0, held_balance := 0, locked := false }

/-- `ClientAccount::total`: `available.checked_add(held).unwrap_or(Decimal::MAX)`. -/
def ClientAccount.total (a : ClientAccount) : ℤ :=
  match checked_add a.available_balance a.held_balance with
  | some v => v
  | none => DECIMAL_MAX

/-- `ProcessingError` from `engine.rs`. -/
inductive ProcessingError where
  | MissingAmount
  | InsufficientFunds
  | BalanceOverflow
  | AccountLocked
  | TransactionNotFound
  | InvalidTransactionStatus
  | InvalidDispute
deriving DecidableEq, Repr

/-- Association-list lookup: the value bound to key `k`, if any
(the embedding of `HashMap::get` / `contains_key`). -/
def lookupA {β : Type} : List (ℕ × β) → ℕ → Option β
  | [], _ => none
  | (k', v) :: rest, k => if k' = k then some v else lookupA rest k

/-- Association-list insert-or-replace: replaces the first binding of `k`
in place, or appends a new binding (the embedding of `HashMap::insert` and
of writing through `get_mut` / `entry`). -/
def updateA {β : Type} : List (ℕ × β) → ℕ → β → List (ℕ × β)
  | [], k, v => [(k, v)]
  | (k', v') :: rest, k, v =>
      if k' = k then (k, v) :: rest else (k', v') :: updateA rest k v

/-- `PaymentsEngine` from `engine.rs`: the two owned maps. -/
structure PaymentsEngine where
  clients : List (ClientId × ClientAccount)
  transaction_history : List (TransactionId × Transaction)
deriving DecidableEq

/-- `PaymentsEngine::new()`: both maps empty. -/
def PaymentsEngine.new : PaymentsEngine :=
  { clients := [], transaction_history := [] }

/-- `self.clients.entry(transaction.client).or_default()`: lazily create the
account for a client on first reference. -/
def ensure_client (s : PaymentsEngine) (c : ClientId) : PaymentsEngine :=
  match lookupA s.clients c with
  | some _ => s
  | none => { s with clients := updateA s.clients c ClientAccount.default }

namespace PaymentsEngine

/-- `PaymentsEngine::process_deposit`.  The client is read with
`getD ClientAccount.default` where the Rust code unwraps: the caller
(`process_transaction`) has already created the account. -/
def process_deposit (s : PaymentsEngine) (transaction : Transaction) :
    PaymentsEngine × Except ProcessingError Unit :=
  match transaction.amount with
  | none => (s, .error .MissingAmount)
  | some amount =>
    -- Safe to unwrap as client has already been created in the main method
    let client := (lookupA s.clients transaction.client).getD ClientAccount.default
    match checked_add client.available_balance amount.value with
    | none => (s, .error .BalanceOverflow)
    | some new_avail =>
      let recorded := { transaction with tx_status := .Settled }
      ({ clients := updateA s.clients transaction.client
            { client with available_balance := new_avail },
         transaction_history := updateA s.transaction_history transaction.tx recorded },
       .ok ())

/-- `PaymentsEngine::process_withdrawal`. -/
def process_withdrawal (s : PaymentsEngine) (transaction : Transaction) :
    PaymentsEngine × Except ProcessingError Unit :=
  match transaction.amount with
  | none => (s, .error .MissingAmount)
  | some amount =>
    -- Safe to unwrap as client has already been created in the main method
    let client := (lookupA s.clients transaction.client).getD ClientAccount.default
    if client.available_balance < amount.value then
      (s, .error .InsufficientFunds)
    else
      let recorded := { transaction with tx_status := .Settled }
      ({ clients := updateA s.clients transaction.client
            { client with available_balance := client.available_balance - amount.value },
         transaction_history := updateA s.transaction_history transaction.tx recorded },
       .ok ())

/-- `PaymentsEngine::process_dispute`. -/
def process_dispute (s : PaymentsEngine) (transaction : Transaction) :
    PaymentsEngine × Except ProcessingError Unit :=
  match lookupA s.transaction_history transaction.tx with
  | none => (s, .error .TransactionNotFound)
  | some original_tx =>
    if transaction.client ≠ original_tx.client then
      (s, .error .TransactionNotFound)
    -- Disputes are only possible against Deposit transactions
    else if original_tx.tx_type ≠ .Deposit then
      (s, .error .InvalidDispute)
    -- A dispute can only be opened on a transaction that is settled,
    -- or that has had disputes that have since been resolved
    else if ¬(original_tx.tx_status = .Settled ∨ original_tx.tx_status = .Resolved) then
      (s, .error .InvalidDispute)
    else
      -- Safe to unwrap as client is guaranteed to exist at this point
      let client := (lookupA s.clients transaction.client).getD ClientAccount.default
      match original_tx.amount with
      | none => (s, .error .MissingAmount)
      | some amount =>
        let original_amount := amount.value
        if client.available_balance < original_amount then
          (s, .error .InsufficientFunds)
        else
          match checked_add client.held_balance original_amount with
          | none => (s, .error .BalanceOverflow)
          | some new_held =>
            ({ clients := updateA s.clients transaction.client
                  { client with held_balance := new_held,
                                available_balance := client.available_balance - original_amount },
               transaction_history := updateA s.transaction_history transaction.tx
                  { original_tx with tx_status := .Disputed } },
             .ok ())

/-- `PaymentsEngine::process_resolve`. -/
def process_resolve (s : PaymentsEngine) (transaction : Transaction) :
    PaymentsEngine × Except ProcessingError Unit :=
  match lookupA s.transaction_history transaction.tx with
  | none => (s, .error .TransactionNotFound)
  | some original_tx =>
    if original_tx.client ≠ transaction.client then
      (s, .error .TransactionNotFound)
    else if original_tx.tx_status ≠ .Disputed then
      (s, .error .InvalidTransactionStatus)
    else
      -- Safe to unwrap as client is guaranteed to exist at this point
      let client := (lookupA s.clients transaction.client).getD ClientAccount.default
      match original_tx.amount with
      | none => (s, .error .MissingAmount)
      | some amount =>
        let original_amount := amount.value
        match checked_add client.available_balance original_amount with
        | none => (s, .error .BalanceOverflow)
        | some new_avail =>
          ({ clients := updateA s.clients transaction.client
                { client with available_balance := new_avail,
                              held_balance := client.held_balance - original_amount },
             transaction_history := updateA s.transaction_history transaction.tx
                { original_tx with tx_status := .Resolved } },
           .ok ())

/-- `PaymentsEngine::process_chargeback`. -/
def process_chargeback (s : PaymentsEngine) (transaction : Transaction) :
    PaymentsEngine × Except ProcessingError Unit :=
  match lookupA s.transaction_history transaction.tx with
  | none => (s, .error .TransactionNotFound)
  | some original_tx =>
    if original_tx.client ≠ transaction.client then
      (s, .error .TransactionNotFound)
    else if original_tx.tx_status ≠ .Disputed then
      (s, .error .InvalidTransactionStatus)
    else
      -- Safe to unwrap as client is guaranteed to exist at this point
      let client := (lookupA s.clients transaction.client).getD ClientAccount.default
      match original_tx.amount with
      | none => (s, .error .MissingAmount)
      | some amount =>
        let original_amount := amount.value
        ({ clients := updateA s.clients transaction.client
              { client with held_balance := client.held_balance - original_amount,
                            locked := true },
           transaction_history := updateA s.transaction_history transaction.tx
              { original_tx with tx_status := .ChargedBack } },
         .ok ())

/-- `PaymentsEngine::process_transaction`: lazily create the account, then the
lock check, then duplicate suppression for standard transactions, then the
type-specific transition. -/
def process_transaction (s0 : PaymentsEngine) (transaction : Transaction) :
    PaymentsEngine × Except ProcessingError Unit :=
  let s := ensure_client s0 transaction.client
  let client := (lookupA s.clients transaction.client).getD ClientAccount.default
  if client.locked then
    (s, .error .AccountLocked)
  else if transaction.tx_type.is_standard_transaction
          && (lookupA s.transaction_history transaction.tx).isSome then
    -- Transaction was already processed, let's skip this
    (s, .ok ())
  else
    match transaction.tx_type with
    | .Deposit => process_deposit s transaction
    | .Withdrawal => process_withdrawal s transaction
    | .Dispute => process_dispute s transaction
    | .Resolve => process_resolve s transaction
    | .Chargeback => process_chargeback s transaction

end PaymentsEngine

/-- Processing a whole input sequence from a fresh engine, in arrival order,
continuing past per-transaction failures (the caller's loop in `main.rs` /
`csv.rs` logs errors and keeps going). -/
def processAll (txs : List Transaction) : PaymentsEngine :=
  txs.foldl (fun s t => (s.process_transaction t).1) PaymentsEngine.new

/-- Processing a sequence starting from an arbitrary engine state
(`processAll txs = processList PaymentsEngine.new txs`). -/
def processList (s : PaymentsEngine) (txs : List Transaction) : PaymentsEngine :=
  txs.foldl (fun s t => (s.process_transaction t).1) s

/-- The amount recorded on a transaction, or `0` when absent. -/
def amountValue (t : Transaction) : ℤ :=
  match t.amount with
  | some a => a.value
  | none => 0

/-- Sum of a per-transaction weight over the history entries of one client. -/
def sumOver (h : List (TransactionId × Transaction)) (w : Transaction → ℤ)
    (c : ClientId) : ℤ :=
  (h.map (fun p => if p.2.client = c then w p.2 else 0)).sum

/-- Total amount currently under dispute for client `c`: the sum of the
amounts of the history entries of `c` whose status is `Disputed`. -/
def disputedSum (h : List (TransactionId × Transaction)) (c : ClientId) : ℤ :=
  sumOver h (fun e => if e.tx_status = .Disputed then amountValue e else 0) c

/-- The inductive invariant of reachable engine states. -/
structure Inv (s : PaymentsEngine) : Prop where
  entry_amount : ∀ p ∈ s.transaction_history, (Prod.snd p).amount.isSome = true
  entry_client : ∀ p ∈ s.transaction_history,
      (lookupA s.clients (Prod.snd p).client).isSome = true
  avail_nonneg : ∀ c acc, lookupA s.clients c = some acc → 0 ≤ acc.available_balance
  held_eq : ∀ c acc, lookupA s.clients c = some acc →
      acc.held_balance = disputedSum s.transaction_history c

/-- The two balances of client `c`, read off the account map (`0` for a
client with no account yet — identical to the lazily-created default). -/
def bal (s : PaymentsEngine) (c : ClientId) : ℤ :=
  ((lookupA s.clients c).getD ClientAccount.default).available_balance
    + ((lookupA s.clients c).getD ClientAccount.default).held_balance

/-- Modelled from the spec: the sum of the amounts of a client's *accepted
(successfully applied)* transactions of one standard type in a sequence — a
transaction counts when it has the given type, is addressed to the client,
the call returns `Ok`, and it was not suppressed as a duplicate (its id had
no history entry when it was processed).  This is the spec-side quantity the
conservation property compares the code's balances against. -/
def acceptedSum (ty : TransactionType) :
    PaymentsEngine → List Transaction → ClientId → ℤ
  | _, [], _ => 0
  | s, t :: rest, c =>
    (if t.tx_type = ty ∧ t.client = c ∧ (s.process_transaction t).2 = Except.ok ()
        ∧ lookupA s.transaction_history t.tx = none
      then amountValue t else 0)
    + acceptedSum ty (s.process_transaction t).1 rest c

/-! Concrete inputs used by witnesses and counterexamples.  Monetary values
are in units of `10^(-28)`: `oneUnit` is the decimal `1.0`. -/

/-- The decimal `1.0` as an `Amount`. -/
def oneUnit : Amount := ⟨10 ^ 28, by decide, by decide⟩

/-- The decimal `2.0` as an `Amount`. -/
def twoUnit : Amount := ⟨2 * 10 ^ 28, by decide, by decide⟩

/-- `Decimal::MAX` as an `Amount`. -/
def maxAmount : Amount := ⟨DECIMAL_MAX, by decide, by decide⟩

/-- Deposit of `Decimal::MAX`, dispute it (all funds held), then deposit
`Decimal::MAX` again: a reachable state whose account has
`available = held = Decimal::MAX`. -/
def overflowRun : List Transaction :=
  [ .ofRow .Deposit 1 1 (some maxAmount),
    .ofRow .Dispute 1 1 none,
    .ofRow .Deposit 1 2 (some maxAmount) ]

/-- Deposit of `Decimal::MAX`, dispute it (held at maximum), then a small
second deposit: disputing the second deposit must overflow the held balance. -/
def heldOverflowRun : List Transaction :=
  [ .ofRow .Deposit 1 1 (some maxAmount),
    .ofRow .Dispute 1 1 none,
    .ofRow .Deposit 1 2 (some oneUnit) ]

/-- The account the engine reads for a client: the mapped account, or the
default if the client has no account yet (the lazily-created value). -/
def account_of (s : PaymentsEngine) (c : ClientId) : ClientAccount :=
  (lookupA s.clients c).getD ClientAccount.default

/-- Deposit `1.0`, dispute it, charge it back: a run that leaves client 1
with a locked, zero-balance account. -/
def chargebackRun : List Transaction :=
  [ .ofRow .Deposit 1 1 (some oneUnit),
    .ofRow .Dispute 1 1 none,
    .ofRow .Chargeback 1 1 none ]

/-! Helper lemmas: association lists, sums, `checked_add`, `ensure_client`. -/

theorem lookupA_mem {β : Type} {l : List (ℕ × β)} {k : ℕ} {v : β}
    (h : lookupA l k = some v) : (k, v) ∈ l := by
  induction l with
  | nil => simp [lookupA] at h
  | cons p rest ih =>
    obtain ⟨k', v'⟩ := p
    by_cases hk : k' = k
    · subst hk
      simp [lookupA] at h
      subst h
      exact List.mem_cons_self _ _
    · simp only [lookupA, if_neg hk] at h
      exact List.mem_cons_of_mem _ (ih h)

theorem lookupA_eq_none {β : Type} {l : List (ℕ × β)} {k : ℕ}
    (h : lookupA l k = none) : ∀ v, (k, v) ∉ l := by
  induction l with
  | nil => intro v hv; simp at hv
  | cons p rest ih =>
    obtain ⟨k', v'⟩ := p
    by_cases hk : k' = k
    · subst hk; simp [lookupA] at h
    · simp only [lookupA, if_neg hk] at h
      intro v hv
      rcases List.mem_cons.mp hv with hv | hv
      · exact hk (congrArg Prod.fst hv).symm
      · exact ih h v hv

theorem lookupA_updateA_self {β : Type} (l : List (ℕ × β)) (k : ℕ) (v : β) :
    lookupA (updateA l k v) k = some v := by
  induction l with
  | nil => simp [updateA, lookupA]
  | cons p rest ih =>
    obtain ⟨k', v'⟩ := p
    by_cases hk : k' = k
    · simp [updateA, hk, lookupA]
    · simp [updateA, hk, lookupA, ih]

theorem lookupA_updateA_ne {β : Type} (l : List (ℕ × β)) {k k' : ℕ}
    (h : k ≠ k') (v : β) : lookupA (updateA l k v) k' = lookupA l k' := by
  induction l with
  | nil => simp [updateA, lookupA, h]
  | cons p rest ih =>
    obtain ⟨k'', v''⟩ := p
    by_cases hk : k'' = k
    · subst hk; simp [updateA, lookupA, h]
    · simp only [updateA, if_neg hk, lookupA]
      by_cases hk' : k'' = k'
      · simp [hk']
      · simp [hk', ih]

theorem mem_updateA {β : Type} {l : List (ℕ × β)} {k : ℕ} {v : β} {p : ℕ × β}
    (h : p ∈ updateA l k v) : p ∈ l ∨ p = (k, v) := by
  induction l with
  | nil => simp [updateA] at h; simp [h]
  | cons q rest ih =>
    obtain ⟨k', v'⟩ := q
    by_cases hk : k' = k
    · simp only [updateA, if_pos hk] at h
      rcases List.mem_cons.mp h with h | h
      · right; exact h
      · left; exact List.mem_cons_of_mem _ h
    · simp only [updateA, if_neg hk] at h
      rcases List.mem_cons.mp h with h | h
      · left; exact h ▸ List.mem_cons_self _ _
      · rcases ih h with h | h
        · left; exact List.mem_cons_of_mem _ h
        · right; exact h

theorem updateA_of_lookupA_none {β : Type} {l : List (ℕ × β)} {k : ℕ}
    (h : lookupA l k = none) (v : β) : updateA l k v = l ++ [(k, v)] := by
  induction l with
  | nil => simp [updateA]
  | cons p rest ih =>
    obtain ⟨k', v'⟩ := p
    by_cases hk : k' = k
    · subst hk; simp [lookupA] at h
    · simp only [lookupA, if_neg hk] at h
      simp [updateA, hk, ih h]

theorem sumOver_append (h₁ h₂ : List (TransactionId × Transaction))
    (w : Transaction → ℤ) (c : ClientId) :
    sumOver (h₁ ++ h₂) w c = sumOver h₁ w c + sumOver h₂ w c := by
  simp [sumOver]

theorem sumOver_updateA_absent {h : List (TransactionId × Transaction)}
    {k : TransactionId} (hk : lookupA h k = none) (v : Transaction)
    (w : Transaction → ℤ) (c : ClientId) :
    sumOver (updateA h k v) w c
      = sumOver h w c + (if v.client = c then w v else 0) := by
  rw [updateA_of_lookupA_none hk, sumOver_append]
  simp [sumOver]

theorem sumOver_updateA_present {h : List (TransactionId × Transaction)}
    {k : TransactionId} {e : Transaction} (hk : lookupA h k = some e)
    (v : Transaction) (w : Transaction → ℤ) (c : ClientId) :
    sumOver (updateA h k v) w c
      = sumOver h w c - (if e.client = c then w e else 0)
        + (if v.client = c then w v else 0) := by
  induction h with
  | nil => simp [lookupA] at hk
  | cons p rest ih =>
    obtain ⟨k', e'⟩ := p
    by_cases hkk : k' = k
    · subst hkk
      simp [lookupA] at hk
      subst hk
      simp [updateA, sumOver]
      ring
    · simp only [lookupA, if_neg hkk] at hk
      simp only [updateA, if_neg hkk, sumOver, List.map_cons, List.sum_cons]
      have := ih hk
      simp only [sumOver] at this
      rw [this]
      ring

theorem sumOver_eq_zero {h : List (TransactionId × Transaction)}
    {c : ClientId} (hno : ∀ p ∈ h, (Prod.snd p).client ≠ c)
    (w : Transaction → ℤ) : sumOver h w c = 0 := by
  induction h with
  | nil => simp [sumOver]
  | cons p rest ih =>
    simp only [sumOver, List.map_cons, List.sum_cons]
    rw [if_neg (hno p (List.mem_cons_self _ _))]
    have := ih (fun q hq => hno q (List.mem_cons_of_mem _ hq))
    simp only [sumOver] at this
    rw [this]
    ring

theorem sumOver_nonneg (h : List (TransactionId × Transaction))
    (w : Transaction → ℤ) (c : ClientId) (hw : ∀ e, 0 ≤ w e) :
    0 ≤ sumOver h w c := by
  apply List.sum_nonneg
  intro x hx
  simp only [List.mem_map] at hx
  obtain ⟨p, _, rfl⟩ := hx
  by_cases hc : p.2.client = c
  · simpa [hc] using hw p.2
  · simp [hc]

theorem amountValue_nonneg (t : Transaction) : 0 ≤ amountValue t := by
  unfold amountValue
  cases h : t.amount with
  | none => simp
  | some a => exact le_of_lt a.value_pos

theorem disputedSum_nonneg (h : List (TransactionId × Transaction))
    (c : ClientId) : 0 ≤ disputedSum h c := by
  apply sumOver_nonneg
  intro e
  by_cases hs : e.tx_status = .Disputed
  · simpa [hs] using amountValue_nonneg e
  · simp [hs]

theorem checked_add_some {a b v : ℤ} (h : checked_add a b = some v) :
    v = a + b ∧ -DECIMAL_MAX ≤ a + b ∧ a + b ≤ DECIMAL_MAX := by
  unfold checked_add at h
  by_cases hb : -DECIMAL_MAX ≤ a + b ∧ a + b ≤ DECIMAL_MAX
  · rw [if_pos hb] at h
    exact ⟨by simpa using h.symm, hb.1, hb.2⟩
  · rw [if_neg hb] at h
    simp at h

theorem checked_add_eq_some {a b : ℤ} (h₁ : -DECIMAL_MAX ≤ a + b)
    (h₂ : a + b ≤ DECIMAL_MAX) : checked_add a b = some (a + b) := by
  unfold checked_add
  exact if_pos ⟨h₁, h₂⟩

theorem checked_add_eq_none {a b : ℤ} (h : DECIMAL_MAX < a + b) :
    checked_add a b = none := by
  unfold checked_add
  rw [if_neg]
  intro hc
  exact absurd hc.2 (not_le.mpr h)

theorem Inv_new : Inv PaymentsEngine.new := by
  constructor
  · intro p hp; simp [PaymentsEngine.new] at hp
  · intro p hp; simp [PaymentsEngine.new] at hp
  · intro c acc h; simp [PaymentsEngine.new, lookupA] at h
  · intro c acc h; simp [PaymentsEngine.new, lookupA] at h

theorem ensure_client_history (s : PaymentsEngine) (c : ClientId) :
    (ensure_client s c).transaction_history = s.transaction_history := by
  unfold ensure_client
  cases lookupA s.clients c <;> rfl

theorem ensure_client_of_isSome {s : PaymentsEngine} {c : ClientId}
    (h : (lookupA s.clients c).isSome = true) : ensure_client s c = s := by
  unfold ensure_client
  cases hl : lookupA s.clients c with
  | none => rw [hl] at h; simp at h
  | some acc => rfl

theorem lookupA_ensure_client_self (s : PaymentsEngine) (c : ClientId) :
    (lookupA (ensure_client s c).clients c).getD ClientAccount.default
      = (lookupA s.clients c).getD ClientAccount.default := by
  unfold ensure_client
  cases hl : lookupA s.clients c with
  | none => simp [hl, lookupA_updateA_self]
  | some acc => simp [hl]

theorem lookupA_ensure_client_isSome (s : PaymentsEngine) (c : ClientId) :
    (lookupA (ensure_client s c).clients c).isSome = true := by
  unfold ensure_client
  cases hl : lookupA s.clients c with
  | none => simp [hl, lookupA_updateA_self]
  | some acc => simp [hl]

theorem lookupA_ensure_client_ne (s : PaymentsEngine) {c c' : ClientId}
    (h : c ≠ c') : lookupA (ensure_client s c).clients c' = lookupA s.clients c' := by
  unfold ensure_client
  cases hl : lookupA s.clients c with
  | none => simp [lookupA_updateA_ne _ h]
  | some acc => rfl


theorem Inv_ensure_client {s : PaymentsEngine} (hInv : Inv s) (c : ClientId) :
    Inv (ensure_client s c) := by
  unfold ensure_client
  cases hl : lookupA s.clients c with
  | some acc => exact hInv
  | none =>
    have hnoentry : ∀ p ∈ s.transaction_history, (Prod.snd p).client ≠ c := by
      intro p hp hpc
      have := hInv.entry_client p hp
      rw [hpc, hl] at this
      simp at this
    refine ⟨?_, ?_, ?_, ?_⟩
    · exact hInv.entry_amount
    · intro p hp
      by_cases hcc : (Prod.snd p).client = c
      · exact absurd hcc (hnoentry p hp)
      · simp only [lookupA_updateA_ne _ (fun h => hcc h.symm)]
        exact hInv.entry_client p hp
    · intro c' acc' h'
      by_cases hcc : c = c'
      · subst hcc
        rw [lookupA_updateA_self] at h'
        cases h'
        simp [ClientAccount.default]
      · rw [lookupA_updateA_ne _ hcc] at h'
        exact hInv.avail_nonneg c' acc' h'
    · intro c' acc' h'
      by_cases hcc : c = c'
      · subst hcc
        rw [lookupA_updateA_self] at h'
        cases h'
        simp only [ClientAccount.default]
        exact (sumOver_eq_zero hnoentry _).symm
      · rw [lookupA_updateA_ne _ hcc] at h'
        exact hInv.held_eq c' acc' h'

theorem disputedSum_updateA_not_disputed {h : List (TransactionId × Transaction)}
    {k : TransactionId} (hk : lookupA h k = none) {v : Transaction}
    (hv : v.tx_status ≠ TransactionStatus.Disputed) (c : ClientId) :
    disputedSum (updateA h k v) c = disputedSum h c := by
  unfold disputedSum
  rw [sumOver_updateA_absent hk]
  simp [hv]

theorem Inv_process_deposit {s : PaymentsEngine} {t : Transaction} (hInv : Inv s)
    {acc : ClientAccount} (hacc : lookupA s.clients t.client = some acc)
    (hfresh : lookupA s.transaction_history t.tx = none) :
    Inv (PaymentsEngine.process_deposit s t).1 := by
  unfold PaymentsEngine.process_deposit
  cases hamt : t.amount with
  | none => exact hInv
  | some a =>
    simp only [hacc, Option.getD_some]
    cases hadd : checked_add acc.available_balance a.value with
    | none => exact hInv
    | some na =>
      obtain ⟨hna, hlo, hhi⟩ := checked_add_some hadd
      dsimp only
      refine ⟨?_, ?_, ?_, ?_⟩
      · intro p hp
        dsimp only at hp
        rcases mem_updateA hp with hp | rfl
        · exact hInv.entry_amount p hp
        · rfl
      · intro p hp
        dsimp only at hp ⊢
        rcases mem_updateA hp with hp | rfl
        · by_cases hcc : (Prod.snd p).client = t.client
          · rw [hcc, lookupA_updateA_self]; rfl
          · rw [lookupA_updateA_ne _ (fun h => hcc h.symm)]
            exact hInv.entry_client p hp
        · dsimp only
          rw [lookupA_updateA_self]
          rfl
      · intro c' acc' h'
        dsimp only at h'
        by_cases hcc : t.client = c'
        · subst hcc
          rw [lookupA_updateA_self, Option.some.injEq] at h'
          subst h'
          have h0 := hInv.avail_nonneg _ _ hacc
          have h1 := a.value_pos
          show 0 ≤ na
          omega
        · rw [lookupA_updateA_ne _ hcc] at h'
          exact hInv.avail_nonneg c' acc' h'
      · intro c' acc' h'
        dsimp only at h' ⊢
        rw [disputedSum_updateA_not_disputed hfresh (by simp) c']
        by_cases hcc : t.client = c'
        · subst hcc
          rw [lookupA_updateA_self, Option.some.injEq] at h'
          subst h'
          show acc.held_balance = disputedSum s.transaction_history t.client
          exact hInv.held_eq _ _ hacc
        · rw [lookupA_updateA_ne _ hcc] at h'
          exact hInv.held_eq c' acc' h'

theorem Inv_process_withdrawal {s : PaymentsEngine} {t : Transaction} (hInv : Inv s)
    {acc : ClientAccount} (hacc : lookupA s.clients t.client = some acc)
    (hfresh : lookupA s.transaction_history t.tx = none) :
    Inv (PaymentsEngine.process_withdrawal s t).1 := by
  unfold PaymentsEngine.process_withdrawal
  cases hamt : t.amount with
  | none => exact hInv
  | some a =>
    simp only [hacc, Option.getD_some]
    by_cases hlt : acc.available_balance < a.value
    · rw [if_pos hlt]
      exact hInv
    · rw [if_neg hlt]
      dsimp only
      refine ⟨?_, ?_, ?_, ?_⟩
      · intro p hp
        dsimp only at hp
        rcases mem_updateA hp with hp | rfl
        · exact hInv.entry_amount p hp
        · rfl
      · intro p hp
        dsimp only at hp ⊢
        rcases mem_updateA hp with hp | rfl
        · by_cases hcc : (Prod.snd p).client = t.client
          · rw [hcc, lookupA_updateA_self]; rfl
          · rw [lookupA_updateA_ne _ (fun h => hcc h.symm)]
            exact hInv.entry_client p hp
        · dsimp only
          rw [lookupA_updateA_self]
          rfl
      · intro c' acc' h'
        dsimp only at h'
        by_cases hcc : t.client = c'
        · subst hcc
          rw [lookupA_updateA_self, Option.some.injEq] at h'
          subst h'
          show 0 ≤ acc.available_balance - a.value
          omega
        · rw [lookupA_updateA_ne _ hcc] at h'
          exact hInv.avail_nonneg c' acc' h'
      · intro c' acc' h'
        dsimp only at h' ⊢
        rw [disputedSum_updateA_not_disputed hfresh (by simp) c']
        by_cases hcc : t.client = c'
        · subst hcc
          rw [lookupA_updateA_self, Option.some.injEq] at h'
          subst h'
          show acc.held_balance = disputedSum s.transaction_history t.client
          exact hInv.held_eq _ _ hacc
        · rw [lookupA_updateA_ne _ hcc] at h'
          exact hInv.held_eq c' acc' h'

theorem disputedSum_updateA_dispute {h : List (TransactionId × Transaction)}
    {k : TransactionId} {e : Transaction} {a : Amount}
    (he : lookupA h k = some e) (hamt : e.amount = some a)
    (hnd : e.tx_status ≠ TransactionStatus.Disputed) (c : ClientId) :
    disputedSum (updateA h k { e with tx_status := TransactionStatus.Disputed }) c
      = disputedSum h c + (if e.client = c then a.value else 0) := by
  unfold disputedSum
  rw [sumOver_updateA_present he]
  by_cases hc : e.client = c <;> simp [hc, hnd, amountValue, hamt]

theorem disputedSum_updateA_undispute {h : List (TransactionId × Transaction)}
    {k : TransactionId} {e : Transaction} {a : Amount}
    (he : lookupA h k = some e) (hamt : e.amount = some a)
    (hd : e.tx_status = TransactionStatus.Disputed)
    {st : TransactionStatus} (hst : st ≠ TransactionStatus.Disputed) (c : ClientId) :
    disputedSum (updateA h k { e with tx_status := st }) c
      = disputedSum h c - (if e.client = c then a.value else 0) := by
  unfold disputedSum
  rw [sumOver_updateA_present he]
  by_cases hc : e.client = c <;> simp [hc, hd, hst, amountValue, hamt]

theorem Inv_process_dispute {s : PaymentsEngine} {t : Transaction} (hInv : Inv s) :
    Inv (PaymentsEngine.process_dispute s t).1 := by
  unfold PaymentsEngine.process_dispute
  cases he : lookupA s.transaction_history t.tx with
  | none => exact hInv
  | some e =>
    dsimp only
    by_cases hcl : t.client ≠ e.client
    · rw [if_pos hcl]; exact hInv
    · rw [if_neg hcl]
      push_neg at hcl
      by_cases hty : e.tx_type ≠ TransactionType.Deposit
      · rw [if_pos hty]; exact hInv
      · rw [if_neg hty]
        by_cases hstat : ¬(e.tx_status = TransactionStatus.Settled
            ∨ e.tx_status = TransactionStatus.Resolved)
        · rw [if_pos hstat]; exact hInv
        · rw [if_neg hstat]
          push_neg at hstat
          have hnd : e.tx_status ≠ TransactionStatus.Disputed := by
            rcases hstat with h | h <;> simp [h]
          cases hl : lookupA s.clients t.client with
          | none =>
            exfalso
            have hm := hInv.entry_client _ (lookupA_mem he)
            rw [show (Prod.snd (t.tx, e)).client = e.client from rfl, ← hcl, hl] at hm
            simp at hm
          | some acc =>
            cases hamt : e.amount with
            | none => exact hInv
            | some a =>
              simp only [hl, Option.getD_some]
              by_cases hlt : acc.available_balance < a.value
              · rw [if_pos hlt]; exact hInv
              · rw [if_neg hlt]
                cases hadd : checked_add acc.held_balance a.value with
                | none => exact hInv
                | some nh =>
                  obtain ⟨hnh, hlo, hhi⟩ := checked_add_some hadd
                  dsimp only
                  have hds := disputedSum_updateA_dispute he hamt hnd
                  refine ⟨?_, ?_, ?_, ?_⟩
                  · intro p hp
                    dsimp only at hp
                    rcases mem_updateA hp with hp | rfl
                    · exact hInv.entry_amount p hp
                    · simp
                  · intro p hp
                    dsimp only at hp ⊢
                    rcases mem_updateA hp with hp | rfl
                    · by_cases hcc : (Prod.snd p).client = t.client
                      · rw [hcc, lookupA_updateA_self]; rfl
                      · rw [lookupA_updateA_ne _ (fun h => hcc h.symm)]
                        exact hInv.entry_client p hp
                    · dsimp only
                      rw [← hcl, lookupA_updateA_self]
                      rfl
                  · intro c' acc' h'
                    dsimp only at h'
                    by_cases hcc : t.client = c'
                    · subst hcc
                      rw [lookupA_updateA_self, Option.some.injEq] at h'
                      subst h'
                      show 0 ≤ acc.available_balance - a.value
                      omega
                    · rw [lookupA_updateA_ne _ hcc] at h'
                      exact hInv.avail_nonneg c' acc' h'
                  · intro c' acc' h'
                    dsimp only at h' ⊢
                    have heq := hds c'
                    rw [show ({ e with tx_status := TransactionStatus.Disputed } : Transaction)
                        = { tx_type := e.tx_type, client := e.client, tx := e.tx,
                            amount := some a, tx_status := TransactionStatus.Disputed } from by
                          rw [← hamt]] at heq
                    rw [heq]
                    by_cases hcc : t.client = c'
                    · subst hcc
                      rw [lookupA_updateA_self, Option.some.injEq] at h'
                      subst h'
                      have hheld := hInv.held_eq _ _ hl
                      rw [if_pos hcl.symm]
                      show nh = disputedSum s.transaction_history t.client + a.value
                      omega
                    · rw [lookupA_updateA_ne _ hcc] at h'
                      rw [if_neg (fun h => hcc (hcl.trans h))]
                      have hheld := hInv.held_eq _ _ h'
                      omega

theorem Inv_process_resolve {s : PaymentsEngine} {t : Transaction} (hInv : Inv s) :
    Inv (PaymentsEngine.process_resolve s t).1 := by
  unfold PaymentsEngine.process_resolve
  cases he : lookupA s.transaction_history t.tx with
  | none => exact hInv
  | some e =>
    dsimp only
    by_cases hcl : e.client ≠ t.client
    · rw [if_pos hcl]; exact hInv
    · rw [if_neg hcl]
      push_neg at hcl
      by_cases hsd : e.tx_status ≠ TransactionStatus.Disputed
      · rw [if_pos hsd]; exact hInv
      · rw [if_neg hsd]
        push_neg at hsd
        cases hl : lookupA s.clients t.client with
        | none =>
          exfalso
          have hm := hInv.entry_client _ (lookupA_mem he)
          rw [show (Prod.snd (t.tx, e)).client = e.client from rfl, hcl, hl] at hm
          simp at hm
        | some acc =>
          cases hamt : e.amount with
          | none => exact hInv
          | some a =>
            simp only [hl, Option.getD_some]
            cases hadd : checked_add acc.available_balance a.value with
            | none => exact hInv
            | some na =>
              obtain ⟨hna, hlo, hhi⟩ := checked_add_some hadd
              dsimp only
              have hds := disputedSum_updateA_undispute he hamt hsd
                (show TransactionStatus.Resolved ≠ TransactionStatus.Disputed by simp)
              refine ⟨?_, ?_, ?_, ?_⟩
              · intro p hp
                dsimp only at hp
                rcases mem_updateA hp with hp | rfl
                · exact hInv.entry_amount p hp
                · simp
              · intro p hp
                dsimp only at hp ⊢
                rcases mem_updateA hp with hp | rfl
                · by_cases hcc : (Prod.snd p).client = t.client
                  · rw [hcc, lookupA_updateA_self]; rfl
                  · rw [lookupA_updateA_ne _ (fun h => hcc h.symm)]
                    exact hInv.entry_client p hp
                · dsimp only
                  rw [hcl, lookupA_updateA_self]
                  rfl
              · intro c' acc' h'
                dsimp only at h'
                by_cases hcc : t.client = c'
                · subst hcc
                  rw [lookupA_updateA_self, Option.some.injEq] at h'
                  subst h'
                  have h0 := hInv.avail_nonneg _ _ hl
                  have h1 := a.value_pos
                  show 0 ≤ na
                  omega
                · rw [lookupA_updateA_ne _ hcc] at h'
                  exact hInv.avail_nonneg c' acc' h'
              · intro c' acc' h'
                dsimp only at h' ⊢
                have heq := hds c'
                rw [show ({ e with tx_status := TransactionStatus.Resolved } : Transaction)
                    = { tx_type := e.tx_type, client := e.client, tx := e.tx,
                        amount := some a, tx_status := TransactionStatus.Resolved } from by
                      rw [← hamt]] at heq
                rw [heq]
                by_cases hcc : t.client = c'
                · subst hcc
                  rw [lookupA_updateA_self, Option.some.injEq] at h'
                  subst h'
                  have hheld := hInv.held_eq _ _ hl
                  rw [if_pos hcl]
                  show acc.held_balance - a.value
                      = disputedSum s.transaction_history t.client - a.value
                  omega
                · rw [lookupA_updateA_ne _ hcc] at h'
                  rw [if_neg (fun h => hcc (hcl.symm.trans h))]
                  have hheld := hInv.held_eq _ _ h'
                  omega

theorem Inv_process_chargeback {s : PaymentsEngine} {t : Transaction} (hInv : Inv s) :
    Inv (PaymentsEngine.process_chargeback s t).1 := by
  unfold PaymentsEngine.process_chargeback
  cases he : lookupA s.transaction_history t.tx with
  | none => exact hInv
  | some e =>
    dsimp only
    by_cases hcl : e.client ≠ t.client
    · rw [if_pos hcl]; exact hInv
    · rw [if_neg hcl]
      push_neg at hcl
      by_cases hsd : e.tx_status ≠ TransactionStatus.Disputed
      · rw [if_pos hsd]; exact hInv
      · rw [if_neg hsd]
        push_neg at hsd
        cases hl : lookupA s.clients t.client with
        | none =>
          exfalso
          have hm := hInv.entry_client _ (lookupA_mem he)
          rw [show (Prod.snd (t.tx, e)).client = e.client from rfl, hcl, hl] at hm
          simp at hm
        | some acc =>
          cases hamt : e.amount with
          | none => exact hInv
          | some a =>
            simp only [hl, Option.getD_some]
            have hds := disputedSum_updateA_undispute he hamt hsd
              (show TransactionStatus.ChargedBack ≠ TransactionStatus.Disputed by simp)
            refine ⟨?_, ?_, ?_, ?_⟩
            · intro p hp
              dsimp only at hp
              rcases mem_updateA hp with hp | rfl
              · exact hInv.entry_amount p hp
              · simp
            · intro p hp
              dsimp only at hp ⊢
              rcases mem_updateA hp with hp | rfl
              · by_cases hcc : (Prod.snd p).client = t.client
                · rw [hcc, lookupA_updateA_self]; rfl
                · rw [lookupA_updateA_ne _ (fun h => hcc h.symm)]
                  exact hInv.entry_client p hp
              · dsimp only
                rw [hcl, lookupA_updateA_self]
                rfl
            · intro c' acc' h'
              dsimp only at h'
              by_cases hcc : t.client = c'
              · subst hcc
                rw [lookupA_updateA_self, Option.some.injEq] at h'
                subst h'
                show 0 ≤ acc.available_balance
                exact hInv.avail_nonneg _ _ hl
              · rw [lookupA_updateA_ne _ hcc] at h'
                exact hInv.avail_nonneg c' acc' h'
            · intro c' acc' h'
              dsimp only at h' ⊢
              have heq := hds c'
              rw [show ({ e with tx_status := TransactionStatus.ChargedBack } : Transaction)
                  = { tx_type := e.tx_type, client := e.client, tx := e.tx,
                      amount := some a, tx_status := TransactionStatus.ChargedBack } from by
                    rw [← hamt]] at heq
              rw [heq]
              by_cases hcc : t.client = c'
              · subst hcc
                rw [lookupA_updateA_self, Option.some.injEq] at h'
                subst h'
                have hheld := hInv.held_eq _ _ hl
                rw [if_pos hcl]
                show acc.held_balance - a.value
                    = disputedSum s.transaction_history t.client - a.value
                omega
              · rw [lookupA_updateA_ne _ hcc] at h'
                rw [if_neg (fun h => hcc (hcl.symm.trans h))]
                have hheld := hInv.held_eq _ _ h'
                omega

theorem Inv_process_transaction (s : PaymentsEngine) (t : Transaction) (hInv : Inv s) :
    Inv (s.process_transaction t).1 := by
  unfold PaymentsEngine.process_transaction
  dsimp only
  have hInv' := Inv_ensure_client hInv t.client
  obtain ⟨acc, hacc⟩ :=
    Option.isSome_iff_exists.mp (lookupA_ensure_client_isSome s t.client)
  by_cases hlk : ((lookupA (ensure_client s t.client).clients t.client).getD
      ClientAccount.default).locked = true
  · rw [if_pos hlk]
    exact hInv'
  · rw [if_neg hlk]
    by_cases hdup : (t.tx_type.is_standard_transaction
        && (lookupA (ensure_client s t.client).transaction_history t.tx).isSome) = true
    · rw [if_pos hdup]
      exact hInv'
    · rw [if_neg hdup]
      cases hty : t.tx_type with
      | Deposit =>
        cases hfo : lookupA (ensure_client s t.client).transaction_history t.tx with
        | none => exact Inv_process_deposit hInv' hacc hfo
        | some e => exact absurd (by rw [hty, hfo]; rfl) hdup
      | Withdrawal =>
        cases hfo : lookupA (ensure_client s t.client).transaction_history t.tx with
        | none => exact Inv_process_withdrawal hInv' hacc hfo
        | some e => exact absurd (by rw [hty, hfo]; rfl) hdup
      | Dispute => exact Inv_process_dispute hInv'
      | Resolve => exact Inv_process_resolve hInv'
      | Chargeback => exact Inv_process_chargeback hInv'

theorem Inv_processList (txs : List Transaction) :
    ∀ s, Inv s → Inv (processList s txs) := by
  induction txs with
  | nil => intro s h; exact h
  | cons t rest ih =>
    intro s h
    exact ih _ (Inv_process_transaction s t h)

theorem Inv_processAll (txs : List Transaction) : Inv (processAll txs) :=
  Inv_processList txs PaymentsEngine.new Inv_new

/-- C1: Balance nonnegativity invariant: for every transaction sequence
processed from a fresh engine, after every call (every prefix being itself
such a sequence, whether each call returned `Ok` or `Err`), every account in
the client map has `available_balance ≥ 0` and `held_balance ≥ 0`; in
particular the unchecked held-balance subtractions in resolve and chargeback
never drive `held_balance` negative, being bounded by the disputes that
created them. -/
theorem C1_balances_nonneg (txs : List Transaction) (c : ClientId)
    (acc : ClientAccount) (h : lookupA (processAll txs).clients c = some acc) :
    0 ≤ acc.available_balance ∧ 0 ≤ acc.held_balance := by
  have hInv := Inv_processAll txs
  refine ⟨hInv.avail_nonneg c acc h, ?_⟩
  rw [hInv.held_eq c acc h]
  exact disputedSum_nonneg _ c

/-- Witness for C1 at a concrete run: a single deposit of `1.0`. -/
theorem C1_balances_nonneg_witness :
    0 ≤ (ClientAccount.mk (10 ^ 28) 0 false).available_balance
      ∧ 0 ≤ (ClientAccount.mk (10 ^ 28) 0 false).held_balance :=
  C1_balances_nonneg [Transaction.ofRow .Deposit 1 1 (some oneUnit)] 1
    (ClientAccount.mk (10 ^ 28) 0 false) (by decide)

/-- C2 counterexample: the state reached by depositing `Decimal::MAX`,
disputing that deposit, and depositing `Decimal::MAX` again has
`available = held = Decimal::MAX`, and `total()` returns `Decimal::MAX`,
not the exact sum `available + held`. -/
theorem C2_total_counterexample :
    lookupA (processAll overflowRun).clients 1
        = some (ClientAccount.mk DECIMAL_MAX DECIMAL_MAX false)
      ∧ (ClientAccount.mk DECIMAL_MAX DECIMAL_MAX false).total
          ≠ (ClientAccount.mk DECIMAL_MAX DECIMAL_MAX false).available_balance
            + (ClientAccount.mk DECIMAL_MAX DECIMAL_MAX false).held_balance := by
  exact ⟨by decide, by decide⟩

/-- C2 (amended): for every reachable account, `total()` returns the exact
sum `available_balance + held_balance` whenever that sum is representable
(at most `Decimal::MAX`), and saturates to `Decimal::MAX` otherwise. -/
theorem C2_total_eq (txs : List Transaction) (c : ClientId) (acc : ClientAccount)
    (h : lookupA (processAll txs).clients c = some acc) :
    acc.total = if acc.available_balance + acc.held_balance ≤ DECIMAL_MAX
      then acc.available_balance + acc.held_balance else DECIMAL_MAX := by
  have hInv := Inv_processAll txs
  have h1 := hInv.avail_nonneg c acc h
  have h2 : 0 ≤ acc.held_balance := by
    rw [hInv.held_eq c acc h]
    exact disputedSum_nonneg _ c
  have hMAX : (0:ℤ) ≤ DECIMAL_MAX := by decide
  unfold ClientAccount.total checked_add
  by_cases hle : acc.available_balance + acc.held_balance ≤ DECIMAL_MAX
  · rw [if_pos ⟨by omega, hle⟩, if_pos hle]
  · rw [if_neg (fun hc => hle hc.2), if_neg hle]

/-- Witness for C2 (amended) at a concrete run: a single deposit of `1.0`. -/
theorem C2_total_eq_witness :
    (ClientAccount.mk (10 ^ 28) 0 false).total
      = if (ClientAccount.mk (10 ^ 28) 0 false).available_balance
            + (ClientAccount.mk (10 ^ 28) 0 false).held_balance ≤ DECIMAL_MAX
        then (ClientAccount.mk (10 ^ 28) 0 false).available_balance
            + (ClientAccount.mk (10 ^ 28) 0 false).held_balance
        else DECIMAL_MAX :=
  C2_total_eq [Transaction.ofRow .Deposit 1 1 (some oneUnit)] 1
    (ClientAccount.mk (10 ^ 28) 0 false) (by decide)

/-- C6: replaying a Deposit or Withdrawal whose transaction id already has a
history entry, addressed to an existing unlocked account, returns `Ok` and is
a complete no-op: the engine state (all balances, locked flags, and the entire
transaction history) is unchanged. -/
theorem C6_duplicate_noop (s : PaymentsEngine) (t : Transaction) (acc : ClientAccount)
    (hacc : lookupA s.clients t.client = some acc) (hunlocked : acc.locked = false)
    (hstd : t.tx_type.is_standard_transaction = true)
    (hdup : (lookupA s.transaction_history t.tx).isSome = true) :
    s.process_transaction t = (s, Except.ok ()) := by
  unfold PaymentsEngine.process_transaction
  rw [ensure_client_of_isSome (by rw [hacc]; rfl)]
  simp [hacc, hunlocked, hstd, hdup]

/-- Witness for C6: replaying id 1 as a deposit of a different amount after
a deposit of `1.0` under id 1. -/
theorem C6_duplicate_noop_witness :
    (processAll [Transaction.ofRow .Deposit 1 1 (some oneUnit)]).process_transaction
        (Transaction.ofRow .Deposit 1 1 (some twoUnit))
      = (processAll [Transaction.ofRow .Deposit 1 1 (some oneUnit)], Except.ok ()) :=
  C6_duplicate_noop _ _ (ClientAccount.mk (10 ^ 28) 0 false)
    (by decide) (by decide) (by decide) (by decide)

/-- C9: duplicate suppression keys on the transaction id alone: any standard
transaction whose id already has a history entry, addressed to a client whose
account is absent or unlocked, returns `Ok` and changes nothing except the
lazy creation of the submitting client default account — even when its type,
client, or amount differ from the recorded entry. -/
theorem C9_duplicate_suppression (s : PaymentsEngine) (t : Transaction)
    (hunlocked : ∀ acc, lookupA s.clients t.client = some acc → acc.locked = false)
    (hstd : t.tx_type.is_standard_transaction = true)
    (hdup : (lookupA s.transaction_history t.tx).isSome = true) :
    s.process_transaction t = (ensure_client s t.client, Except.ok ()) := by
  unfold PaymentsEngine.process_transaction
  have hlk : ((lookupA (ensure_client s t.client).clients t.client).getD
      ClientAccount.default).locked = false := by
    unfold ensure_client
    cases hl : lookupA s.clients t.client with
    | none => simp [lookupA_updateA_self, ClientAccount.default]
    | some acc => simp [hl, hunlocked acc hl]
  have hh : (lookupA (ensure_client s t.client).transaction_history t.tx).isSome = true := by
    rw [ensure_client_history]
    exact hdup
  simp [hlk, hstd, hh]

/-- Witness for C9: a withdrawal from a different client reusing deposit id 1
is suppressed with `Ok`; only client 2 default account is created. -/
theorem C9_duplicate_suppression_witness :
    (processAll [Transaction.ofRow .Deposit 1 1 (some oneUnit)]).process_transaction
        (Transaction.ofRow .Withdrawal 2 1 (some twoUnit))
      = (ensure_client (processAll [Transaction.ofRow .Deposit 1 1 (some oneUnit)]) 2,
         Except.ok ()) :=
  C9_duplicate_suppression _ _
    (by
      intro acc h
      rw [show (Transaction.ofRow TransactionType.Withdrawal 2 1 (some twoUnit)).client
            = 2 from rfl,
          show lookupA (processAll [Transaction.ofRow .Deposit 1 1 (some oneUnit)]).clients 2
            = none from by decide] at h
      cases h)
    (by decide) (by decide)

theorem process_deposit_error_state (s : PaymentsEngine) (t : Transaction)
    {err : ProcessingError}
    (h : (PaymentsEngine.process_deposit s t).2 = Except.error err) :
    (PaymentsEngine.process_deposit s t).1 = s := by
  revert h
  unfold PaymentsEngine.process_deposit
  cases t.amount with
  | none => intro _; rfl
  | some a =>
    dsimp only
    cases checked_add ((lookupA s.clients t.client).getD
        ClientAccount.default).available_balance a.value with
    | none => intro _; rfl
    | some na => intro h; exact absurd h (by simp)

theorem process_withdrawal_error_state (s : PaymentsEngine) (t : Transaction)
    {err : ProcessingError}
    (h : (PaymentsEngine.process_withdrawal s t).2 = Except.error err) :
    (PaymentsEngine.process_withdrawal s t).1 = s := by
  revert h
  unfold PaymentsEngine.process_withdrawal
  cases t.amount with
  | none => intro _; rfl
  | some a =>
    dsimp only
    by_cases hlt : ((lookupA s.clients t.client).getD
        ClientAccount.default).available_balance < a.value
    · rw [if_pos hlt]; intro _; rfl
    · rw [if_neg hlt]; intro h; exact absurd h (by simp)

theorem process_dispute_error_state (s : PaymentsEngine) (t : Transaction)
    {err : ProcessingError}
    (h : (PaymentsEngine.process_dispute s t).2 = Except.error err) :
    (PaymentsEngine.process_dispute s t).1 = s := by
  revert h
  unfold PaymentsEngine.process_dispute
  cases lookupA s.transaction_history t.tx with
  | none => intro _; rfl
  | some e =>
    dsimp only
    by_cases h1 : t.client ≠ e.client
    · rw [if_pos h1]; intro _; rfl
    · rw [if_neg h1]
      by_cases h2 : e.tx_type ≠ TransactionType.Deposit
      · rw [if_pos h2]; intro _; rfl
      · rw [if_neg h2]
        by_cases h3 : ¬(e.tx_status = TransactionStatus.Settled
            ∨ e.tx_status = TransactionStatus.Resolved)
        · rw [if_pos h3]; intro _; rfl
        · rw [if_neg h3]
          cases e.amount with
          | none => intro _; rfl
          | some a =>
            dsimp only
            by_cases h4 : ((lookupA s.clients t.client).getD
                ClientAccount.default).available_balance < a.value
            · rw [if_pos h4]; intro _; rfl
            · rw [if_neg h4]
              cases checked_add ((lookupA s.clients t.client).getD
                  ClientAccount.default).held_balance a.value with
              | none => intro _; rfl
              | some nh => intro h; exact absurd h (by simp)

theorem process_resolve_error_state (s : PaymentsEngine) (t : Transaction)
    {err : ProcessingError}
    (h : (PaymentsEngine.process_resolve s t).2 = Except.error err) :
    (PaymentsEngine.process_resolve s t).1 = s := by
  revert h
  unfold PaymentsEngine.process_resolve
  cases lookupA s.transaction_history t.tx with
  | none => intro _; rfl
  | some e =>
    dsimp only
    by_cases h1 : e.client ≠ t.client
    · rw [if_pos h1]; intro _; rfl
    · rw [if_neg h1]
      by_cases h2 : e.tx_status ≠ TransactionStatus.Disputed
      · rw [if_pos h2]; intro _; rfl
      · rw [if_neg h2]
        cases e.amount with
        | none => intro _; rfl
        | some a =>
          dsimp only
          cases checked_add ((lookupA s.clients t.client).getD
              ClientAccount.default).available_balance a.value with
          | none => intro _; rfl
          | some na => intro h; exact absurd h (by simp)

theorem process_chargeback_error_state (s : PaymentsEngine) (t : Transaction)
    {err : ProcessingError}
    (h : (PaymentsEngine.process_chargeback s t).2 = Except.error err) :
    (PaymentsEngine.process_chargeback s t).1 = s := by
  revert h
  unfold PaymentsEngine.process_chargeback
  cases lookupA s.transaction_history t.tx with
  | none => intro _; rfl
  | some e =>
    dsimp only
    by_cases h1 : e.client ≠ t.client
    · rw [if_pos h1]; intro _; rfl
    · rw [if_neg h1]
      by_cases h2 : e.tx_status ≠ TransactionStatus.Disputed
      · rw [if_pos h2]; intro _; rfl
      · rw [if_neg h2]
        cases e.amount with
        | none => intro _; rfl
        | some a => intro h; exact absurd h (by simp)

/-- C3 counterexample: processing a Dispute for an unknown client on a fresh
engine returns an error, yet the client-account map has changed — the lazy
`entry().or_default()` account creation survives the failed call. -/
theorem C3_atomicity_counterexample :
    (PaymentsEngine.new.process_transaction (Transaction.ofRow .Dispute 1 1 none)).2
        = Except.error ProcessingError.TransactionNotFound
      ∧ (PaymentsEngine.new.process_transaction (Transaction.ofRow .Dispute 1 1 none)).1.clients
        ≠ PaymentsEngine.new.clients :=
  ⟨by decide, by decide⟩

/-- C3 (amended): when `process_transaction` returns an error, the
transaction-history map is exactly as before the call, and the client-account
map is exactly as before except possibly for the lazy creation of the default
(zero-balance, unlocked) account of the transaction client — no transition
leaves either map otherwise partially updated. -/
theorem C3_error_atomic (s : PaymentsEngine) (t : Transaction) (err : ProcessingError)
    (h : (s.process_transaction t).2 = Except.error err) :
    (s.process_transaction t).1 = ensure_client s t.client
      ∧ (s.process_transaction t).1.transaction_history = s.transaction_history := by
  have hmain : (s.process_transaction t).1 = ensure_client s t.client := by
    revert h
    unfold PaymentsEngine.process_transaction
    dsimp only
    by_cases hlk : ((lookupA (ensure_client s t.client).clients t.client).getD
        ClientAccount.default).locked = true
    · rw [if_pos hlk]; intro _; rfl
    · rw [if_neg hlk]
      by_cases hdup : (t.tx_type.is_standard_transaction
          && (lookupA (ensure_client s t.client).transaction_history t.tx).isSome) = true
      · rw [if_pos hdup]; intro h; exact absurd h (by simp)
      · rw [if_neg hdup]
        cases t.tx_type with
        | Deposit => exact process_deposit_error_state _ t
        | Withdrawal => exact process_withdrawal_error_state _ t
        | Dispute => exact process_dispute_error_state _ t
        | Resolve => exact process_resolve_error_state _ t
        | Chargeback => exact process_chargeback_error_state _ t
  exact ⟨hmain, by rw [hmain, ensure_client_history]⟩

/-- Witness for C3 (amended) at the counterexample input. -/
theorem C3_error_atomic_witness :
    (PaymentsEngine.new.process_transaction (Transaction.ofRow .Dispute 1 1 none)).1
        = ensure_client PaymentsEngine.new 1
      ∧ (PaymentsEngine.new.process_transaction
          (Transaction.ofRow .Dispute 1 1 none)).1.transaction_history
        = PaymentsEngine.new.transaction_history :=
  C3_error_atomic PaymentsEngine.new (Transaction.ofRow .Dispute 1 1 none)
    ProcessingError.TransactionNotFound (by decide)

theorem process_dispute_no_missing (s : PaymentsEngine) (t : Transaction)
    (hamts : ∀ p ∈ s.transaction_history, (Prod.snd p).amount.isSome = true) :
    (PaymentsEngine.process_dispute s t).2
      ≠ Except.error ProcessingError.MissingAmount := by
  unfold PaymentsEngine.process_dispute
  cases he : lookupA s.transaction_history t.tx with
  | none => intro hc; simp at hc
  | some e =>
    dsimp only
    by_cases h1 : t.client ≠ e.client
    · rw [if_pos h1]; intro hc; simp at hc
    · rw [if_neg h1]
      by_cases h2 : e.tx_type ≠ TransactionType.Deposit
      · rw [if_pos h2]; intro hc; simp at hc
      · rw [if_neg h2]
        by_cases h3 : ¬(e.tx_status = TransactionStatus.Settled
            ∨ e.tx_status = TransactionStatus.Resolved)
        · rw [if_pos h3]; intro hc; simp at hc
        · rw [if_neg h3]
          cases hamt : e.amount with
          | none =>
            have hm := hamts _ (lookupA_mem he)
            rw [show (Prod.snd (t.tx, e)).amount = e.amount from rfl, hamt] at hm
            simp at hm
          | some a =>
            dsimp only
            by_cases h4 : ((lookupA s.clients t.client).getD
                ClientAccount.default).available_balance < a.value
            · rw [if_pos h4]; intro hc; simp at hc
            · rw [if_neg h4]
              cases checked_add ((lookupA s.clients t.client).getD
                  ClientAccount.default).held_balance a.value with
              | none => intro hc; simp at hc
              | some nh => intro hc; simp at hc

theorem process_resolve_no_missing (s : PaymentsEngine) (t : Transaction)
    (hamts : ∀ p ∈ s.transaction_history, (Prod.snd p).amount.isSome = true) :
    (PaymentsEngine.process_resolve s t).2
      ≠ Except.error ProcessingError.MissingAmount := by
  unfold PaymentsEngine.process_resolve
  cases he : lookupA s.transaction_history t.tx with
  | none => intro hc; simp at hc
  | some e =>
    dsimp only
    by_cases h1 : e.client ≠ t.client
    · rw [if_pos h1]; intro hc; simp at hc
    · rw [if_neg h1]
      by_cases h2 : e.tx_status ≠ TransactionStatus.Disputed
      · rw [if_pos h2]; intro hc; simp at hc
      · rw [if_neg h2]
        cases hamt : e.amount with
        | none =>
          have hm := hamts _ (lookupA_mem he)
          rw [show (Prod.snd (t.tx, e)).amount = e.amount from rfl, hamt] at hm
          simp at hm
        | some a =>
          dsimp only
          cases checked_add ((lookupA s.clients t.client).getD
              ClientAccount.default).available_balance a.value with
          | none => intro hc; simp at hc
          | some na => intro hc; simp at hc

theorem process_chargeback_no_missing (s : PaymentsEngine) (t : Transaction)
    (hamts : ∀ p ∈ s.transaction_history, (Prod.snd p).amount.isSome = true) :
    (PaymentsEngine.process_chargeback s t).2
      ≠ Except.error ProcessingError.MissingAmount := by
  unfold PaymentsEngine.process_chargeback
  cases he : lookupA s.transaction_history t.tx with
  | none => intro hc; simp at hc
  | some e =>
    dsimp only
    by_cases h1 : e.client ≠ t.client
    · rw [if_pos h1]; intro hc; simp at hc
    · rw [if_neg h1]
      by_cases h2 : e.tx_status ≠ TransactionStatus.Disputed
      · rw [if_pos h2]; intro hc; simp at hc
      · rw [if_neg h2]
        cases hamt : e.amount with
        | none =>
          have hm := hamts _ (lookupA_mem he)
          rw [show (Prod.snd (t.tx, e)).amount = e.amount from rfl, hamt] at hm
          simp at hm
        | some a => intro hc; simp at hc

/-- C10: the `MissingAmount` error branch of the dispute, resolve, and
chargeback handlers is unreachable: in every reachable engine state, every
history entry carries an amount (only amount-checked deposits and withdrawals
are ever recorded), so `process_transaction` never returns `MissingAmount`
for a referential (non-standard) transaction. -/
theorem C10_no_missing_amount (txs : List Transaction) (t : Transaction)
    (h : t.tx_type.is_standard_transaction = false) :
    ((processAll txs).process_transaction t).2
      ≠ Except.error ProcessingError.MissingAmount := by
  have hInv' : Inv (ensure_client (processAll txs) t.client) :=
    Inv_ensure_client (Inv_processAll txs) t.client
  unfold PaymentsEngine.process_transaction
  dsimp only
  by_cases hlk : ((lookupA (ensure_client (processAll txs) t.client).clients
      t.client).getD ClientAccount.default).locked = true
  · rw [if_pos hlk]; intro hc; simp at hc
  · rw [if_neg hlk]
    by_cases hdup : (t.tx_type.is_standard_transaction
        && (lookupA (ensure_client (processAll txs) t.client).transaction_history
              t.tx).isSome) = true
    · rw [if_pos hdup]; intro hc; simp at hc
    · rw [if_neg hdup]
      cases hty : t.tx_type with
      | Deposit =>
        rw [hty] at h
        simp [TransactionType.is_standard_transaction] at h
      | Withdrawal =>
        rw [hty] at h
        simp [TransactionType.is_standard_transaction] at h
      | Dispute => exact process_dispute_no_missing _ t hInv'.entry_amount
      | Resolve => exact process_resolve_no_missing _ t hInv'.entry_amount
      | Chargeback => exact process_chargeback_no_missing _ t hInv'.entry_amount

/-- Witness for C10: a dispute on a fresh engine (the failure is
`TransactionNotFound`, never `MissingAmount`). -/
theorem C10_no_missing_amount_witness :
    ((processAll []).process_transaction (Transaction.ofRow .Dispute 1 1 none)).2
      ≠ Except.error ProcessingError.MissingAmount :=
  C10_no_missing_amount [] (Transaction.ofRow .Dispute 1 1 none) (by decide)

theorem process_locked (s : PaymentsEngine) (t : Transaction) (acc : ClientAccount)
    (hacc : lookupA s.clients t.client = some acc) (hlk : acc.locked = true) :
    s.process_transaction t = (s, Except.error ProcessingError.AccountLocked) := by
  unfold PaymentsEngine.process_transaction
  rw [ensure_client_of_isSome (by rw [hacc]; rfl)]
  simp [hacc, hlk]

theorem process_deposit_clients_shape (s : PaymentsEngine) (t : Transaction) :
    (PaymentsEngine.process_deposit s t).1.clients = s.clients
      ∨ ∃ acc, (PaymentsEngine.process_deposit s t).1.clients
          = updateA s.clients t.client acc := by
  unfold PaymentsEngine.process_deposit
  cases t.amount with
  | none => left; rfl
  | some a =>
    dsimp only
    cases checked_add ((lookupA s.clients t.client).getD
        ClientAccount.default).available_balance a.value with
    | none => left; rfl
    | some na => right; exact ⟨_, rfl⟩

theorem process_withdrawal_clients_shape (s : PaymentsEngine) (t : Transaction) :
    (PaymentsEngine.process_withdrawal s t).1.clients = s.clients
      ∨ ∃ acc, (PaymentsEngine.process_withdrawal s t).1.clients
          = updateA s.clients t.client acc := by
  unfold PaymentsEngine.process_withdrawal
  cases t.amount with
  | none => left; rfl
  | some a =>
    dsimp only
    by_cases hlt : ((lookupA s.clients t.client).getD
        ClientAccount.default).available_balance < a.value
    · rw [if_pos hlt]; left; rfl
    · rw [if_neg hlt]; right; exact ⟨_, rfl⟩

theorem process_dispute_clients_shape (s : PaymentsEngine) (t : Transaction) :
    (PaymentsEngine.process_dispute s t).1.clients = s.clients
      ∨ ∃ acc, (PaymentsEngine.process_dispute s t).1.clients
          = updateA s.clients t.client acc := by
  unfold PaymentsEngine.process_dispute
  cases lookupA s.transaction_history t.tx with
  | none => left; rfl
  | some e =>
    dsimp only
    by_cases h1 : t.client ≠ e.client
    · rw [if_pos h1]; left; rfl
    · rw [if_neg h1]
      by_cases h2 : e.tx_type ≠ TransactionType.Deposit
      · rw [if_pos h2]; left; rfl
      · rw [if_neg h2]
        by_cases h3 : ¬(e.tx_status = TransactionStatus.Settled
            ∨ e.tx_status = TransactionStatus.Resolved)
        · rw [if_pos h3]; left; rfl
        · rw [if_neg h3]
          cases e.amount with
          | none => left; rfl
          | some a =>
            dsimp only
            by_cases h4 : ((lookupA s.clients t.client).getD
                ClientAccount.default).available_balance < a.value
            · rw [if_pos h4]; left; rfl
            · rw [if_neg h4]
              cases checked_add ((lookupA s.clients t.client).getD
                  ClientAccount.default).held_balance a.value with
              | none => left; rfl
              | some nh => right; exact ⟨_, rfl⟩

theorem process_resolve_clients_shape (s : PaymentsEngine) (t : Transaction) :
    (PaymentsEngine.process_resolve s t).1.clients = s.clients
      ∨ ∃ acc, (PaymentsEngine.process_resolve s t).1.clients
          = updateA s.clients t.client acc := by
  unfold PaymentsEngine.process_resolve
  cases lookupA s.transaction_history t.tx with
  | none => left; rfl
  | some e =>
    dsimp only
    by_cases h1 : e.client ≠ t.client
    · rw [if_pos h1]; left; rfl
    · rw [if_neg h1]
      by_cases h2 : e.tx_status ≠ TransactionStatus.Disputed
      · rw [if_pos h2]; left; rfl
      · rw [if_neg h2]
        cases e.amount with
        | none => left; rfl
        | some a =>
          dsimp only
          cases checked_add ((lookupA s.clients t.client).getD
              ClientAccount.default).available_balance a.value with
          | none => left; rfl
          | some na => right; exact ⟨_, rfl⟩

theorem process_chargeback_clients_shape (s : PaymentsEngine) (t : Transaction) :
    (PaymentsEngine.process_chargeback s t).1.clients = s.clients
      ∨ ∃ acc, (PaymentsEngine.process_chargeback s t).1.clients
          = updateA s.clients t.client acc := by
  unfold PaymentsEngine.process_chargeback
  cases lookupA s.transaction_history t.tx with
  | none => left; rfl
  | some e =>
    dsimp only
    by_cases h1 : e.client ≠ t.client
    · rw [if_pos h1]; left; rfl
    · rw [if_neg h1]
      by_cases h2 : e.tx_status ≠ TransactionStatus.Disputed
      · rw [if_pos h2]; left; rfl
      · rw [if_neg h2]
        cases e.amount with
        | none => left; rfl
        | some a => right; exact ⟨_, rfl⟩

theorem process_clients_shape (s : PaymentsEngine) (t : Transaction) :
    (s.process_transaction t).1.clients = (ensure_client s t.client).clients
      ∨ ∃ acc, (s.process_transaction t).1.clients
          = updateA (ensure_client s t.client).clients t.client acc := by
  unfold PaymentsEngine.process_transaction
  dsimp only
  by_cases hlk : ((lookupA (ensure_client s t.client).clients t.client).getD
      ClientAccount.default).locked = true
  · rw [if_pos hlk]; left; rfl
  · rw [if_neg hlk]
    by_cases hdup : (t.tx_type.is_standard_transaction
        && (lookupA (ensure_client s t.client).transaction_history t.tx).isSome) = true
    · rw [if_pos hdup]; left; rfl
    · rw [if_neg hdup]
      cases t.tx_type with
      | Deposit => exact process_deposit_clients_shape _ t
      | Withdrawal => exact process_withdrawal_clients_shape _ t
      | Dispute => exact process_dispute_clients_shape _ t
      | Resolve => exact process_resolve_clients_shape _ t
      | Chargeback => exact process_chargeback_clients_shape _ t

theorem lookupA_process_ne (s : PaymentsEngine) (t : Transaction) {c : ClientId}
    (hne : t.client ≠ c) :
    lookupA (s.process_transaction t).1.clients c = lookupA s.clients c := by
  rcases process_clients_shape s t with h | ⟨acc, h⟩
  · rw [h, lookupA_ensure_client_ne s hne]
  · rw [h, lookupA_updateA_ne _ hne, lookupA_ensure_client_ne s hne]

theorem locked_step (s : PaymentsEngine) (t : Transaction) {c : ClientId}
    {acc : ClientAccount} (hacc : lookupA s.clients c = some acc)
    (hlk : acc.locked = true) :
    ∃ acc', lookupA (s.process_transaction t).1.clients c = some acc'
      ∧ acc'.locked = true := by
  by_cases hc : t.client = c
  · subst hc
    rw [process_locked s t acc hacc hlk]
    exact ⟨acc, hacc, hlk⟩
  · rw [lookupA_process_ne s t hc]
    exact ⟨acc, hacc, hlk⟩

theorem locked_processList (txs : List Transaction) :
    ∀ (s : PaymentsEngine) (c : ClientId) (acc : ClientAccount),
      lookupA s.clients c = some acc → acc.locked = true →
      ∃ acc', lookupA (processList s txs).clients c = some acc'
        ∧ acc'.locked = true := by
  induction txs with
  | nil => exact fun s c acc h hl => ⟨acc, h, hl⟩
  | cons t rest ih =>
    intro s c acc h hl
    obtain ⟨acc', h', hl'⟩ := locked_step s t h hl
    exact ih _ c acc' h' hl'

/-- C4: lock permanence: once a reachable state has an account with
`locked = true`, no continuation of the run ever unlocks it, and every
transaction addressed to that client fails with `AccountLocked` leaving the
whole engine state (balances, statuses, history) unchanged. -/
theorem C4_lock_permanence (txs txs' : List Transaction) (c : ClientId)
    (acc : ClientAccount) (hacc : lookupA (processAll txs).clients c = some acc)
    (hlk : acc.locked = true) :
    (∃ acc', lookupA (processAll (txs ++ txs')).clients c = some acc'
        ∧ acc'.locked = true)
      ∧ ∀ t : Transaction, t.client = c →
          (processAll (txs ++ txs')).process_transaction t
            = (processAll (txs ++ txs'), Except.error ProcessingError.AccountLocked) := by
  have happ : processAll (txs ++ txs') = processList (processAll txs) txs' := by
    unfold processAll processList
    rw [List.foldl_append]
  obtain ⟨acc', h', hl'⟩ := locked_processList txs' (processAll txs) c acc hacc hlk
  rw [← happ] at h'
  refine ⟨⟨acc', h', hl'⟩, ?_⟩
  intro t htc
  exact process_locked _ t acc' (by rw [htc]; exact h') hl'

/-- Witness for C4: after deposit, dispute, chargeback, client 1 is locked;
appending a further deposit leaves it locked and rejected. -/
theorem C4_lock_permanence_witness :
    (∃ acc', lookupA (processAll (chargebackRun
          ++ [Transaction.ofRow .Deposit 1 9 (some oneUnit)])).clients 1 = some acc'
        ∧ acc'.locked = true)
      ∧ ∀ t : Transaction, t.client = 1 →
          (processAll (chargebackRun
              ++ [Transaction.ofRow .Deposit 1 9 (some oneUnit)])).process_transaction t
            = (processAll (chargebackRun ++ [Transaction.ofRow .Deposit 1 9 (some oneUnit)]),
               Except.error ProcessingError.AccountLocked) :=
  C4_lock_permanence chargebackRun [Transaction.ofRow .Deposit 1 9 (some oneUnit)] 1
    (ClientAccount.mk 0 0 true) (by decide) (by decide)

theorem roundtrip_deposit_step (c : ClientId) (k : TransactionId) (a : Amount) :
    PaymentsEngine.new.process_transaction (Transaction.ofRow .Deposit c k (some a))
      = (PaymentsEngine.mk [(c, ClientAccount.mk a.value 0 false)]
           [(k, Transaction.mk .Deposit c k (some a) .Settled)], Except.ok ()) := by
  have hpos := a.value_pos
  have hmax := a.value_le_max
  have hMAX : (0:ℤ) ≤ DECIMAL_MAX := by decide
  unfold PaymentsEngine.process_transaction ensure_client PaymentsEngine.process_deposit
  simp [PaymentsEngine.new, lookupA, updateA, Transaction.ofRow,
        TransactionType.is_standard_transaction, ClientAccount.default,
        checked_add_eq_some (show -DECIMAL_MAX ≤ (0:ℤ) + a.value by omega)
          (show (0:ℤ) + a.value ≤ DECIMAL_MAX by omega)]

theorem roundtrip_dispute_step (c : ClientId) (k : TransactionId) (a : Amount) :
    (PaymentsEngine.mk [(c, ClientAccount.mk a.value 0 false)]
        [(k, Transaction.mk .Deposit c k (some a) .Settled)]).process_transaction
      (Transaction.ofRow .Dispute c k none)
    = (PaymentsEngine.mk [(c, ClientAccount.mk 0 a.value false)]
        [(k, Transaction.mk .Deposit c k (some a) .Disputed)], Except.ok ()) := by
  have hpos := a.value_pos
  have hmax := a.value_le_max
  have hMAX : (0:ℤ) ≤ DECIMAL_MAX := by decide
  unfold PaymentsEngine.process_transaction ensure_client PaymentsEngine.process_dispute
  simp [lookupA, updateA, Transaction.ofRow, TransactionType.is_standard_transaction,
        checked_add_eq_some (show -DECIMAL_MAX ≤ (0:ℤ) + a.value by omega)
          (show (0:ℤ) + a.value ≤ DECIMAL_MAX by omega)]

theorem roundtrip_resolve_step (c : ClientId) (k : TransactionId) (a : Amount) :
    (PaymentsEngine.mk [(c, ClientAccount.mk 0 a.value false)]
        [(k, Transaction.mk .Deposit c k (some a) .Disputed)]).process_transaction
      (Transaction.ofRow .Resolve c k none)
    = (PaymentsEngine.mk [(c, ClientAccount.mk a.value 0 false)]
        [(k, Transaction.mk .Deposit c k (some a) .Resolved)], Except.ok ()) := by
  have hpos := a.value_pos
  have hmax := a.value_le_max
  have hMAX : (0:ℤ) ≤ DECIMAL_MAX := by decide
  unfold PaymentsEngine.process_transaction ensure_client PaymentsEngine.process_resolve
  simp [lookupA, updateA, Transaction.ofRow, TransactionType.is_standard_transaction,
        checked_add_eq_some (show -DECIMAL_MAX ≤ (0:ℤ) + a.value by omega)
          (show (0:ℤ) + a.value ≤ DECIMAL_MAX by omega)]

/-- C7: dispute reversibility: from a fresh engine,
`Deposit(c, t, amt)`, `Dispute(c, t)`, `Resolve(c, t)` all succeed and leave
client `c` with `available_balance = amt` and `held_balance = 0`, unlocked —
the same balances as after the deposit alone. -/
theorem C7_dispute_resolve_roundtrip (c : ClientId) (k : TransactionId) (a : Amount) :
    (PaymentsEngine.new.process_transaction
        (Transaction.ofRow .Deposit c k (some a))).2 = Except.ok ()
    ∧ ((PaymentsEngine.new.process_transaction
          (Transaction.ofRow .Deposit c k (some a))).1.process_transaction
        (Transaction.ofRow .Dispute c k none)).2 = Except.ok ()
    ∧ (((PaymentsEngine.new.process_transaction
          (Transaction.ofRow .Deposit c k (some a))).1.process_transaction
        (Transaction.ofRow .Dispute c k none)).1.process_transaction
        (Transaction.ofRow .Resolve c k none)).2 = Except.ok ()
    ∧ lookupA (((PaymentsEngine.new.process_transaction
          (Transaction.ofRow .Deposit c k (some a))).1.process_transaction
        (Transaction.ofRow .Dispute c k none)).1.process_transaction
        (Transaction.ofRow .Resolve c k none)).1.clients c
      = some (ClientAccount.mk a.value 0 false) := by
  have h1 := roundtrip_deposit_step c k a
  have h2 := roundtrip_dispute_step c k a
  have h3 := roundtrip_resolve_step c k a
  rw [h1]
  dsimp only
  rw [h2]
  dsimp only
  rw [h3]
  refine ⟨rfl, rfl, rfl, ?_⟩
  simp [lookupA]

theorem bal_ensure_client (s : PaymentsEngine) (c' c : ClientId) :
    bal (ensure_client s c') c = bal s c := by
  unfold ensure_client
  cases hl : lookupA s.clients c' with
  | some acc => rfl
  | none =>
    unfold bal
    by_cases hc : c' = c
    · subst hc
      rw [lookupA_updateA_self, hl]
      rfl
    · rw [lookupA_updateA_ne _ hc]

theorem bal_step (s : PaymentsEngine) (t : Transaction) (c : ClientId)
    (hcb : t.tx_type ≠ TransactionType.Chargeback) :
    bal (s.process_transaction t).1 c
      = bal s c
        + (if t.tx_type = TransactionType.Deposit ∧ t.client = c
              ∧ (s.process_transaction t).2 = Except.ok ()
              ∧ lookupA s.transaction_history t.tx = none
           then amountValue t else 0)
        - (if t.tx_type = TransactionType.Withdrawal ∧ t.client = c
              ∧ (s.process_transaction t).2 = Except.ok ()
              ∧ lookupA s.transaction_history t.tx = none
           then amountValue t else 0) := by
  have hbe := bal_ensure_client s t.client c
  have hhist := ensure_client_history s t.client
  unfold PaymentsEngine.process_transaction
  dsimp only
  by_cases hlk : ((lookupA (ensure_client s t.client).clients t.client).getD
      ClientAccount.default).locked = true
  · rw [if_pos hlk]
    simp [hbe]
  · rw [if_neg hlk]
    by_cases hdup : (t.tx_type.is_standard_transaction
        && (lookupA (ensure_client s t.client).transaction_history t.tx).isSome) = true
    · rw [if_pos hdup]
      have hsome : ¬(lookupA s.transaction_history t.tx = none) := by
        intro h0
        rw [hhist, h0] at hdup
        simp at hdup
      simp [hbe, hsome]
    · rw [if_neg hdup]
      cases hty : t.tx_type with
      | Chargeback => exact absurd hty hcb
      | Deposit =>
        cases hfo : lookupA (ensure_client s t.client).transaction_history t.tx with
        | some e => exact absurd (by rw [hty, hfo]; rfl) hdup
        | none =>
          have hfresh0 : lookupA s.transaction_history t.tx = none := by
            rw [← hhist]; exact hfo
          unfold PaymentsEngine.process_deposit
          cases hamt : t.amount with
          | none => simp [hbe]
          | some a =>
            dsimp only
            cases hadd : checked_add ((lookupA (ensure_client s t.client).clients
                t.client).getD ClientAccount.default).available_balance a.value with
            | none => simp [hbe]
            | some na =>
              obtain ⟨hna, _, _⟩ := checked_add_some hadd
              dsimp only
              by_cases hc : t.client = c
              · subst hc
                rw [if_pos ⟨rfl, rfl, rfl, hfresh0⟩,
                    if_neg (fun hcond => by cases hcond.1)]
                rw [← hbe]
                unfold bal
                dsimp only
                rw [lookupA_updateA_self]
                simp [amountValue, hamt]
                omega
              · rw [if_neg (fun hcond => hc hcond.2.1),
                    if_neg (fun hcond => by cases hcond.1)]
                rw [← hbe]
                unfold bal
                dsimp only
                rw [lookupA_updateA_ne _ hc]
                simp
      | Withdrawal =>
        cases hfo : lookupA (ensure_client s t.client).transaction_history t.tx with
        | some e => exact absurd (by rw [hty, hfo]; rfl) hdup
        | none =>
          have hfresh0 : lookupA s.transaction_history t.tx = none := by
            rw [← hhist]; exact hfo
          unfold PaymentsEngine.process_withdrawal
          cases hamt : t.amount with
          | none => simp [hbe]
          | some a =>
            dsimp only
            by_cases hlt : ((lookupA (ensure_client s t.client).clients
                t.client).getD ClientAccount.default).available_balance < a.value
            · rw [if_pos hlt]
              simp [hbe]
            · rw [if_neg hlt]
              dsimp only
              by_cases hc : t.client = c
              · subst hc
                rw [if_neg (fun hcond => by cases hcond.1),
                    if_pos ⟨rfl, rfl, rfl, hfresh0⟩]
                rw [← hbe]
                unfold bal
                dsimp only
                rw [lookupA_updateA_self]
                simp [amountValue, hamt]
                omega
              · rw [if_neg (fun hcond => hc hcond.2.1),
                    if_neg (fun hcond => hc hcond.2.1)]
                rw [← hbe]
                unfold bal
                dsimp only
                rw [lookupA_updateA_ne _ hc]
                simp
      | Dispute =>
        unfold PaymentsEngine.process_dispute
        cases he : lookupA (ensure_client s t.client).transaction_history t.tx with
        | none => simp [hbe]
        | some e =>
          dsimp only
          by_cases h1 : t.client ≠ e.client
          · rw [if_pos h1]; simp [hbe]
          · rw [if_neg h1]
            by_cases h2 : e.tx_type ≠ TransactionType.Deposit
            · rw [if_pos h2]; simp [hbe]
            · rw [if_neg h2]
              by_cases h3 : ¬(e.tx_status = TransactionStatus.Settled
                  ∨ e.tx_status = TransactionStatus.Resolved)
              · rw [if_pos h3]; simp [hbe]
              · rw [if_neg h3]
                cases hamt : e.amount with
                | none => simp [hbe]
                | some a =>
                  dsimp only
                  by_cases h4 : ((lookupA (ensure_client s t.client).clients
                      t.client).getD ClientAccount.default).available_balance < a.value
                  · rw [if_pos h4]; simp [hbe]
                  · rw [if_neg h4]
                    cases hadd : checked_add ((lookupA (ensure_client s t.client).clients
                        t.client).getD ClientAccount.default).held_balance a.value with
                    | none => simp [hbe]
                    | some nh =>
                      obtain ⟨hnh, _, _⟩ := checked_add_some hadd
                      dsimp only
                      rw [if_neg (fun hcond => by cases hcond.1),
                          if_neg (fun hcond => by cases hcond.1)]
                      by_cases hc : t.client = c
                      · subst hc
                        rw [← hbe]
                        unfold bal
                        dsimp only
                        rw [lookupA_updateA_self]
                        simp
                        omega
                      · rw [← hbe]
                        unfold bal
                        dsimp only
                        rw [lookupA_updateA_ne _ hc]
                        simp
      | Resolve =>
        unfold PaymentsEngine.process_resolve
        cases he : lookupA (ensure_client s t.client).transaction_history t.tx with
        | none => simp [hbe]
        | some e =>
          dsimp only
          by_cases h1 : e.client ≠ t.client
          · rw [if_pos h1]; simp [hbe]
          · rw [if_neg h1]
            by_cases h2 : e.tx_status ≠ TransactionStatus.Disputed
            · rw [if_pos h2]; simp [hbe]
            · rw [if_neg h2]
              cases hamt : e.amount with
              | none => simp [hbe]
              | some a =>
                dsimp only
                cases hadd : checked_add ((lookupA (ensure_client s t.client).clients
                    t.client).getD ClientAccount.default).available_balance a.value with
                | none => simp [hbe]
                | some na =>
                  obtain ⟨hna, _, _⟩ := checked_add_some hadd
                  dsimp only
                  rw [if_neg (fun hcond => by cases hcond.1),
                      if_neg (fun hcond => by cases hcond.1)]
                  by_cases hc : t.client = c
                  · subst hc
                    rw [← hbe]
                    unfold bal
                    dsimp only
                    rw [lookupA_updateA_self]
                    simp
                    omega
                  · rw [← hbe]
                    unfold bal
                    dsimp only
                    rw [lookupA_updateA_ne _ hc]
                    simp

theorem bal_processList (txs : List Transaction) :
    ∀ (s : PaymentsEngine) (c : ClientId),
      (∀ t ∈ txs, t.tx_type ≠ TransactionType.Chargeback) →
      bal (processList s txs) c
        = bal s c + acceptedSum .Deposit s txs c - acceptedSum .Withdrawal s txs c := by
  induction txs with
  | nil => intro s c _; simp [processList, acceptedSum]
  | cons t rest ih =>
    intro s c hno
    have hstep := bal_step s t c (hno t (List.mem_cons_self _ _))
    have hrest := ih (s.process_transaction t).1 c
      (fun q hq => hno q (List.mem_cons_of_mem _ hq))
    show bal (processList (s.process_transaction t).1 rest) c = _
    rw [hrest, hstep]
    simp only [acceptedSum]
    ring

/-- C5: conservation: for every chargeback-free transaction sequence from a
fresh engine and every client, the final `available + held` equals the sum of
the amounts of the client accepted (successfully applied, non-suppressed)
deposits minus the sum of its accepted withdrawals; dispute and resolve only
move value between the two sub-balances. -/
theorem C5_conservation (txs : List Transaction)
    (hno : ∀ t ∈ txs, t.tx_type ≠ TransactionType.Chargeback)
    (c : ClientId) (acc : ClientAccount)
    (hacc : lookupA (processAll txs).clients c = some acc) :
    acc.available_balance + acc.held_balance
      = acceptedSum .Deposit PaymentsEngine.new txs c
        - acceptedSum .Withdrawal PaymentsEngine.new txs c := by
  have h := bal_processList txs PaymentsEngine.new c hno
  have h0 : bal PaymentsEngine.new c = 0 := by
    simp [bal, PaymentsEngine.new, lookupA, ClientAccount.default]
  have hb : bal (processList PaymentsEngine.new txs) c
      = acc.available_balance + acc.held_balance := by
    unfold bal
    rw [show processList PaymentsEngine.new txs = processAll txs from rfl, hacc]
    rfl
  rw [hb, h0] at h
  linarith [h]

/-- Witness for C5: deposit `1.0`, dispute it, resolve it — the final
balances equal the accepted sums. -/
theorem C5_conservation_witness :
    (ClientAccount.mk (10 ^ 28) 0 false).available_balance
        + (ClientAccount.mk (10 ^ 28) 0 false).held_balance
      = acceptedSum .Deposit PaymentsEngine.new
          [Transaction.ofRow .Deposit 1 1 (some oneUnit),
           Transaction.ofRow .Dispute 1 1 none,
           Transaction.ofRow .Resolve 1 1 none] 1
        - acceptedSum .Withdrawal PaymentsEngine.new
          [Transaction.ofRow .Deposit 1 1 (some oneUnit),
           Transaction.ofRow .Dispute 1 1 none,
           Transaction.ofRow .Resolve 1 1 none] 1 :=
  C5_conservation
    [Transaction.ofRow .Deposit 1 1 (some oneUnit),
     Transaction.ofRow .Dispute 1 1 none,
     Transaction.ofRow .Resolve 1 1 none]
    (by decide) 1 (ClientAccount.mk (10 ^ 28) 0 false) (by decide)

/-- C8 counterexample: in the reachable state deposit(MAX id 1); dispute 1;
deposit(1.0 id 2), a dispute of transaction 2 satisfies every premise of the
claim success case (unlocked account, entry found, client matches, a settled
deposit, available ≥ amount) yet fails with `BalanceOverflow` because the
held balance is already at `Decimal::MAX`. -/
theorem C8_dispute_taxonomy_counterexample :
    lookupA (processAll heldOverflowRun).clients 1
        = some (ClientAccount.mk (10 ^ 28) DECIMAL_MAX false)
      ∧ lookupA (processAll heldOverflowRun).transaction_history 2
        = some (Transaction.mk .Deposit 1 2 (some oneUnit) .Settled)
      ∧ ¬((ClientAccount.mk (10 ^ 28) DECIMAL_MAX false).available_balance
            < (10 ^ 28 : ℤ))
      ∧ ((processAll heldOverflowRun).process_transaction
            (Transaction.ofRow .Dispute 1 2 none)).2
        = Except.error ProcessingError.BalanceOverflow :=
  ⟨by decide, by decide, by decide, by decide⟩

/-- C8 (amended): dispute failure taxonomy on a reachable state with the
target account unlocked: `TransactionNotFound` when the entry is absent or
its client differs; else `InvalidDispute` when the entry is not a Deposit or
its status is outside {Settled, Resolved}; else (the entry amount always
being present) `InsufficientFunds` when `available_balance` is below the
disputed amount; else `BalanceOverflow` when adding the amount to
`held_balance` would exceed the representable range; otherwise success,
moving the amount from available to held and marking the entry `Disputed`. -/
theorem C8_dispute_taxonomy (txs : List Transaction) (t : Transaction)
    (hdisp : t.tx_type = TransactionType.Dispute)
    (hunlocked : ∀ acc, lookupA (processAll txs).clients t.client = some acc →
        acc.locked = false) :
    (lookupA (processAll txs).transaction_history t.tx = none →
        ((processAll txs).process_transaction t).2
          = Except.error ProcessingError.TransactionNotFound)
    ∧ (∀ e, lookupA (processAll txs).transaction_history t.tx = some e →
        e.client ≠ t.client →
        ((processAll txs).process_transaction t).2
          = Except.error ProcessingError.TransactionNotFound)
    ∧ (∀ e, lookupA (processAll txs).transaction_history t.tx = some e →
        (e.tx_type ≠ TransactionType.Deposit
          ∨ (e.tx_status ≠ TransactionStatus.Settled
              ∧ e.tx_status ≠ TransactionStatus.Resolved)) →
        e.client = t.client →
        ((processAll txs).process_transaction t).2
          = Except.error ProcessingError.InvalidDispute)
    ∧ (∀ e, lookupA (processAll txs).transaction_history t.tx = some e →
        e.amount.isSome = true)
    ∧ (∀ e a, lookupA (processAll txs).transaction_history t.tx = some e →
        e.client = t.client → e.tx_type = TransactionType.Deposit →
        (e.tx_status = TransactionStatus.Settled
          ∨ e.tx_status = TransactionStatus.Resolved) →
        e.amount = some a →
        (account_of (processAll txs) t.client).available_balance < a.value →
        ((processAll txs).process_transaction t).2
          = Except.error ProcessingError.InsufficientFunds)
    ∧ (∀ e a, lookupA (processAll txs).transaction_history t.tx = some e →
        e.client = t.client → e.tx_type = TransactionType.Deposit →
        (e.tx_status = TransactionStatus.Settled
          ∨ e.tx_status = TransactionStatus.Resolved) →
        e.amount = some a →
        ¬((account_of (processAll txs) t.client).available_balance < a.value) →
        DECIMAL_MAX < (account_of (processAll txs) t.client).held_balance + a.value →
        ((processAll txs).process_transaction t).2
          = Except.error ProcessingError.BalanceOverflow)
    ∧ (∀ e a, lookupA (processAll txs).transaction_history t.tx = some e →
        e.client = t.client → e.tx_type = TransactionType.Deposit →
        (e.tx_status = TransactionStatus.Settled
          ∨ e.tx_status = TransactionStatus.Resolved) →
        e.amount = some a →
        ¬((account_of (processAll txs) t.client).available_balance < a.value) →
        (account_of (processAll txs) t.client).held_balance + a.value ≤ DECIMAL_MAX →
        (processAll txs).process_transaction t
          = (PaymentsEngine.mk
              (updateA (ensure_client (processAll txs) t.client).clients t.client
                (ClientAccount.mk
                  ((account_of (processAll txs) t.client).available_balance - a.value)
                  ((account_of (processAll txs) t.client).held_balance + a.value)
                  (account_of (processAll txs) t.client).locked))
              (updateA (processAll txs).transaction_history t.tx
                (Transaction.mk e.tx_type e.client e.tx (some a)
                  TransactionStatus.Disputed)),
             Except.ok ())) := by
  have hlk : ((lookupA (ensure_client (processAll txs) t.client).clients
      t.client).getD ClientAccount.default).locked = false := by
    unfold ensure_client
    cases hl : lookupA (processAll txs).clients t.client with
    | none => simp [lookupA_updateA_self, ClientAccount.default]
    | some acc => simp [hl, hunlocked acc hl]
  have hacct : (lookupA (ensure_client (processAll txs) t.client).clients
        t.client).getD ClientAccount.default
      = account_of (processAll txs) t.client :=
    lookupA_ensure_client_self _ _
  have hmain : (processAll txs).process_transaction t
      = PaymentsEngine.process_dispute (ensure_client (processAll txs) t.client) t := by
    unfold PaymentsEngine.process_transaction
    dsimp only
    rw [if_neg (by rw [hlk]; simp)]
    rw [hdisp]
    rw [if_neg (by simp [TransactionType.is_standard_transaction])]
  refine ⟨?_, ?_, ?_, ?_, ?_, ?_, ?_⟩
  · intro h0
    rw [hmain]
    unfold PaymentsEngine.process_dispute
    rw [ensure_client_history, h0]
  · intro e he hne
    rw [hmain]
    unfold PaymentsEngine.process_dispute
    rw [ensure_client_history, he]
    dsimp only
    rw [if_pos (fun h => hne h.symm)]
  · intro e he hbad heq
    rw [hmain]
    unfold PaymentsEngine.process_dispute
    rw [ensure_client_history, he]
    dsimp only
    rw [if_neg (fun h => h heq.symm)]
    rcases hbad with hty | ⟨hs1, hs2⟩
    · rw [if_pos hty]
    · by_cases hty2 : e.tx_type ≠ TransactionType.Deposit
      · rw [if_pos hty2]
      · rw [if_neg hty2]
        rw [if_pos (fun h => by rcases h with h | h; exacts [hs1 h, hs2 h])]
  · intro e he
    exact (Inv_processAll txs).entry_amount _ (lookupA_mem he)
  · intro e a he heq hty hstat hamt hlt
    rw [hmain]
    unfold PaymentsEngine.process_dispute
    rw [ensure_client_history, he]
    dsimp only
    rw [if_neg (fun h => h heq.symm), if_neg (fun h => h hty),
        if_neg (fun h => h hstat), hamt]
    dsimp only
    rw [hacct, if_pos hlt]
  · intro e a he heq hty hstat hamt hnlt hgt
    rw [hmain]
    unfold PaymentsEngine.process_dispute
    rw [ensure_client_history, he]
    dsimp only
    rw [if_neg (fun h => h heq.symm), if_neg (fun h => h hty),
        if_neg (fun h => h hstat), hamt]
    dsimp only
    rw [hacct, if_neg hnlt, checked_add_eq_none hgt]
  · intro e a he heq hty hstat hamt hnlt hle
    have hheld0 : 0 ≤ (account_of (processAll txs) t.client).held_balance := by
      unfold account_of
      cases hl : lookupA (processAll txs).clients t.client with
      | none => simp [ClientAccount.default]
      | some acc =>
        have hInv := Inv_processAll txs
        simp only [Option.getD_some]
        rw [hInv.held_eq _ _ hl]
        exact disputedSum_nonneg _ _
    have hpos := a.value_pos
    have hMAX : (0:ℤ) ≤ DECIMAL_MAX := by decide
    rw [hmain]
    unfold PaymentsEngine.process_dispute
    rw [ensure_client_history, he]
    dsimp only
    rw [if_neg (fun h => h heq.symm), if_neg (fun h => h hty),
        if_neg (fun h => h hstat), hamt]
    dsimp only
    rw [hacct, if_neg hnlt,
        checked_add_eq_some (by omega) hle]

/-- Witness for C8 (amended) success case: disputing a settled `1.0` deposit
with sufficient available funds and no held-balance overflow succeeds. -/
theorem C8_dispute_taxonomy_witness :
    (processAll [Transaction.ofRow .Deposit 1 1 (some oneUnit)]).process_transaction
        (Transaction.ofRow .Dispute 1 1 none)
      = (PaymentsEngine.mk
          (updateA (ensure_client
              (processAll [Transaction.ofRow .Deposit 1 1 (some oneUnit)]) 1).clients 1
            (ClientAccount.mk
              ((account_of (processAll [Transaction.ofRow .Deposit 1 1 (some oneUnit)])
                  1).available_balance - oneUnit.value)
              ((account_of (processAll [Transaction.ofRow .Deposit 1 1 (some oneUnit)])
                  1).held_balance + oneUnit.value)
              (account_of (processAll [Transaction.ofRow .Deposit 1 1 (some oneUnit)])
                  1).locked))
          (updateA (processAll
              [Transaction.ofRow .Deposit 1 1 (some oneUnit)]).transaction_history 1
            (Transaction.mk .Deposit 1 1 (some oneUnit) TransactionStatus.Disputed)),
         Except.ok ()) :=
  (C8_dispute_taxonomy [Transaction.ofRow .Deposit 1 1 (some oneUnit)]
      (Transaction.ofRow .Dispute 1 1 none) rfl
      (by
        intro acc h
        rw [show (Transaction.ofRow TransactionType.Dispute 1 1 none).client = 1 from rfl,
            show lookupA (processAll
                [Transaction.ofRow .Deposit 1 1 (some oneUnit)]).clients 1
              = some (ClientAccount.mk (10 ^ 28) 0 false) from by decide] at h
        cases h
        rfl)).2.2.2.2.2.2
    (Transaction.mk .Deposit 1 1 (some oneUnit) .Settled) oneUnit
    (by decide) rfl rfl (Or.inl rfl) rfl (by decide) (by decide)

end Payments
